import Mathlib

/-!
Verification of the MLFQ scheduler (`vllm/core/mlfq_scheduler.py`).

This file gives a shallow embedding of the scheduler's data model and of the
operations the checked claims are about, and proves or refutes each claim.

Modelling conventions:
* Python mutation is turned into explicit state passing.
* Monotonic-clock readings and time constants (`arrival_time`,
  `starvation_threshold`, `base_quantum`, ...) are modelled as integers in an
  arbitrary time unit; the scheduler only compares, subtracts and multiplies
  them, so the control flow is captured exactly.
* The block manager is an external collaborator.  Its answers are modelled as
  an oracle indexed by a call counter (`clk`), which the scheduler bumps at
  every block-manager call, so arbitrary stateful behaviours of the real
  block manager are covered.
* Python dicts are modelled as insertion-ordered association lists, Python
  sets as duplicate-free lists.
* Fatal paths (`assert`, `raise RuntimeError`) are modelled with `Except`.
-/

/-- Status of a `Sequence` (`vllm.sequence.SequenceStatus`). -/
inductive SequenceStatus where
  | WAITING
  | RUNNING
  | SWAPPED
  | FINISHED_STOPPED
  | FINISHED_LENGTH_CAPPED
  | FINISHED_ABORTED
  | FINISHED_IGNORED
deriving DecidableEq, Repr

/-- `SequenceStatus.is_finished`. -/
def SequenceStatus.is_finished : SequenceStatus → Bool
  | .FINISHED_STOPPED => true
  | .FINISHED_LENGTH_CAPPED => true
  | .FINISHED_ABORTED => true
  | .FINISHED_IGNORED => true
  | _ => false

/-- A `Sequence`: one token stream.  `len` models `get_len()`. -/
structure Sequence where
  seq_id : Nat
  status : SequenceStatus
  len : Nat
deriving DecidableEq, Repr

/-- A `SequenceGroup` (one request).  `max_num_running_seqs` models the pure
query `get_max_num_running_seqs()` (a function of the sampling parameters and
sequences, treated as opaque data by the scheduler).  `lora_request` is the
LoRA handle (`None` modelled as `none`), `lora_int_id` its integer id (0 when
absent).  `arrival_time` models `metrics.arrival_time`. -/
structure SequenceGroup where
  request_id : Nat
  priority : Nat
  arrival_time : Int
  lora_int_id : Nat
  lora_request : Option Nat
  max_num_running_seqs : Nat
  seqs : List Sequence
deriving DecidableEq, Repr

/-- `SequenceGroup.get_seqs(status=s)`. -/
def SequenceGroup.get_seqs (g : SequenceGroup) (s : SequenceStatus) : List Sequence :=
  g.seqs.filter (fun q => q.status == s)

/-- `SequenceGroup.num_seqs(status=s)`. -/
def SequenceGroup.num_seqs (g : SequenceGroup) (s : SequenceStatus) : Nat :=
  (g.get_seqs s).length

/-- `SequenceGroup.is_finished()`: all sequences finished. -/
def SequenceGroup.is_finished (g : SequenceGroup) : Bool :=
  g.seqs.all (fun q => q.status.is_finished)

/-- `SequenceGroup.set_priority(p)`. -/
def SequenceGroup.set_priority (g : SequenceGroup) (p : Nat) : SequenceGroup :=
  { g with priority := p }

/-- `MLFQScheduler.Priority_Queue`: one FIFO queue of a given priority level. -/
structure Priority_Queue where
  priority : Nat
  requests : List SequenceGroup
deriving DecidableEq, Repr

/-- `Priority_Queue.push_front`. -/
def Priority_Queue.push_front (q : Priority_Queue) (r : SequenceGroup) : Priority_Queue :=
  { q with requests := r :: q.requests }

/-- `Priority_Queue.push_back`. -/
def Priority_Queue.push_back (q : Priority_Queue) (r : SequenceGroup) : Priority_Queue :=
  { q with requests := q.requests ++ [r] }

/-- `len(Priority_Queue)`. -/
def Priority_Queue.len (q : Priority_Queue) : Nat := q.requests.length

/-- Replace the `i`-th element of a list of queues by `f` of it (models the
in-place mutation `self.queues[i].⋯`). -/
def modifyAt (l : List Priority_Queue) (i : Nat) (f : Priority_Queue → Priority_Queue) :
    List Priority_Queue :=
  match l, i with
  | [], _ => []
  | q :: rest, 0 => f q :: rest
  | q :: rest, i + 1 => q :: modifyAt rest i f

/-- `MLFQScheduler.Priority_Queues`: the priority ladder. -/
structure Priority_Queues where
  queues : List Priority_Queue
deriving DecidableEq, Repr

/-- `Priority_Queues.add_new_queue(p)`: lazily append levels up to `p`. -/
def Priority_Queues.add_new_queue (qs : Priority_Queues) (p : Nat) : Priority_Queues :=
  if qs.queues.length ≤ p then
    ⟨qs.queues ++ (List.range' qs.queues.length (p + 1 - qs.queues.length)).map
      (fun i => ⟨i, []⟩)⟩
  else qs

/-- Helper for `Priority_Queues.pop_front`: scan the levels from priority 0 up
and pop the head of the first non-empty queue. -/
def popFrontAux : List Priority_Queue → Option (SequenceGroup × List Priority_Queue)
  | [] => none
  | q :: rest =>
    match q.requests with
    | [] => (popFrontAux rest).map (fun p => (p.1, q :: p.2))
    | r :: rs => some (r, { q with requests := rs } :: rest)

/-- `Priority_Queues.pop_front()`; returns `none` when every level is empty
(Python returns `None` implicitly). -/
def Priority_Queues.pop_front (qs : Priority_Queues) :
    Option (SequenceGroup × Priority_Queues) :=
  (popFrontAux qs.queues).map (fun p => (p.1, ⟨p.2⟩))

/-- Head of the ladder, without the updated ladder. -/
def Priority_Queues.front? (qs : Priority_Queues) : Option SequenceGroup :=
  qs.pop_front.map (fun p => p.1)

/-- `Priority_Queues.push_back(r)`. -/
def Priority_Queues.push_back (qs : Priority_Queues) (r : SequenceGroup) : Priority_Queues :=
  let qs1 := qs.add_new_queue r.priority
  ⟨modifyAt qs1.queues r.priority (fun q => q.push_back r)⟩

/-- `Priority_Queues.push_front(r)`. -/
def Priority_Queues.push_front (qs : Priority_Queues) (r : SequenceGroup) : Priority_Queues :=
  let qs1 := qs.add_new_queue r.priority
  ⟨modifyAt qs1.queues r.priority (fun q => q.push_front r)⟩

/-- `len(Priority_Queues)`: sum of the per-level lengths. -/
def Priority_Queues.len (qs : Priority_Queues) : Nat :=
  (qs.queues.map (fun q => q.requests.length)).sum

/-- `Priority_Queues.extend_front(deque)`: push each element, in order, to the
front of its own priority level. -/
def Priority_Queues.extend_front (qs : Priority_Queues) (rs : List SequenceGroup) :
    Priority_Queues :=
  rs.foldl (fun acc r => acc.push_front r) qs

/-- Ladder well-formedness at level offset `k`: the queue at absolute index
`k + j` holds only requests of priority `k + j`. -/
def wfbAux : Nat → List Priority_Queue → Bool
  | _, [] => true
  | k, q :: rest => (q.requests.all (fun r => r.priority == k)) && wfbAux (k + 1) rest

/-- Ladder invariant of the spec: a request stored at level `i` has priority `i`. -/
def Priority_Queues.wfb (qs : Priority_Queues) : Bool := wfbAux 0 qs.queues

/-- The configuration the scheduler reads (from `scheduler_config`,
`lora_config` and the constants set in `MLFQScheduler.__init__`).
`lora_enabled` models `bool(self.lora_config)`. -/
structure SchedCfg where
  max_num_seqs : Nat
  max_num_batched_tokens : Nat
  max_paddings : Nat
  max_model_len : Nat
  lora_enabled : Bool
  max_loras : Nat
  base_quantum : Int
  threshold : Int
  starvation_threshold : Int
  starvation_period : Nat
deriving DecidableEq, Repr

/-- `self.prompt_limit = min(max_model_len, max_num_batched_tokens)`. -/
def SchedCfg.prompt_limit (c : SchedCfg) : Nat :=
  min c.max_model_len c.max_num_batched_tokens

/-- The mutable pools of `MLFQScheduler`: the waiting ladder, the running
deque, the swapped ladder and the iteration counter. -/
structure MLFQScheduler where
  waiting : Priority_Queues
  running : List SequenceGroup
  swapped : Priority_Queues
  iteration_num : Nat
deriving DecidableEq, Repr

/-- `vllm.core.block_manager.AllocStatus`. -/
inductive AllocStatus where
  | OK
  | LATER
  | NEVER
deriving DecidableEq, Repr

/-- The external block manager, as an oracle.  Every scheduler-side call is
indexed by a call counter `clk` that the scheduler increments at each call, so
any history-dependent (stateful) behaviour of the real block manager is a
choice of these functions. -/
structure BlockManager where
  can_allocate : Nat → SequenceGroup → AllocStatus
  can_append_slot : Nat → SequenceGroup → Bool
  can_swap_in : Nat → SequenceGroup → Bool
  can_swap_out : Nat → SequenceGroup → Bool
  swap_in_map : Nat → SequenceGroup → List (Nat × Nat)
  swap_out_map : Nat → SequenceGroup → List (Nat × Nat)
  append_slot_ret : Nat → Sequence → Option (Nat × Nat)

/-- The fatal exits of `_schedule`: the single-waiting-sequence assertion
(line 356), the swap-in/swap-out assertion in `SchedulerOutputs.__init__`
(line 50), and the `RuntimeError` raised in `_swap_out` (line 687). -/
inductive SchedError where
  | assertWaitingSeqs
  | assertSwapInOut
  | swapSpaceExhausted
deriving DecidableEq, Repr

/-- `dict.update(mapping)` on an insertion-ordered association list. -/
def dictSet (d : List (Nat × Nat)) (k v : Nat) : List (Nat × Nat) :=
  if d.any (fun kv => kv.1 == k) then
    d.map (fun kv => if kv.1 == k then (k, v) else kv)
  else d ++ [(k, v)]

/-- `blocks_to_swap_out.update(mapping)` / `blocks_to_swap_in.update(mapping)`. -/
def dictUpdate (d m : List (Nat × Nat)) : List (Nat × Nat) :=
  m.foldl (fun acc kv => dictSet acc kv.1 kv.2) d

/-- The copy-on-write bookkeeping of `_append_slot` (lines 612-617): append
`dst` to the list at key `src`, or start a new entry. -/
def copyAdd (d : List (Nat × List Nat)) (src dst : Nat) : List (Nat × List Nat) :=
  if d.any (fun kv => kv.1 == src) then
    d.map (fun kv => if kv.1 == src then (kv.1, kv.2 ++ [dst]) else kv)
  else d ++ [(src, [dst])]

/-- The per-iteration plan (`SchedulerOutputs`). -/
structure SchedulerOutputs where
  scheduled_seq_groups : List SequenceGroup
  prompt_run : Bool
  num_batched_tokens : Nat
  blocks_to_swap_in : List (Nat × Nat)
  blocks_to_swap_out : List (Nat × Nat)
  blocks_to_copy : List (Nat × List Nat)
  ignored_seq_groups : List SequenceGroup
deriving DecidableEq, Repr

/-- The Python set `{g.lora_request for g in scheduled_seq_groups}` as a
duplicate-free list (insertion order; only membership and size are used). -/
def lora_requests (scheduled : List SequenceGroup) : List (Option Nat) :=
  scheduled.foldl
    (fun acc g => if acc.contains g.lora_request then acc else acc ++ [g.lora_request]) []

/-- `self.num_loras = len(self.lora_requests)`. -/
def num_loras (scheduled : List SequenceGroup) : Nat := (lora_requests scheduled).length

/-- The sort key of `_sort_by_lora_ids`: `(g.lora_int_id, g.request_id)`,
compared lexicographically. -/
def loraKeyLe (a b : SequenceGroup) : Bool :=
  a.lora_int_id < b.lora_int_id ||
    (a.lora_int_id == b.lora_int_id && a.request_id ≤ b.request_id)

/-- Stable insertion of `x` after every element whose key is ≤ its key. -/
def insertLe (le : SequenceGroup → SequenceGroup → Bool) (x : SequenceGroup) :
    List SequenceGroup → List SequenceGroup
  | [] => [x]
  | y :: ys => if le y x then y :: insertLe le x ys else x :: y :: ys

/-- Stable sort (Python's `sorted` is stable): elements are inserted left to
right, each one after the already-placed elements with an equal or smaller key. -/
def stableSortBy (le : SequenceGroup → SequenceGroup → Bool)
    (l : List SequenceGroup) : List SequenceGroup :=
  l.foldl (fun acc x => insertLe le x acc) []

/-- `SchedulerOutputs._sort_by_lora_ids`. -/
def sort_by_lora_ids (l : List SequenceGroup) : List SequenceGroup :=
  stableSortBy loraKeyLe l

/-- `SchedulerOutputs.__init__`: stores the fields, asserts that swap-in and
swap-out are not both non-empty (line 50), and, when `num_loras > 0`, replaces
the scheduled list by the `(lora_int_id, request_id)`-sorted one (lines 53-55). -/
def mkSchedulerOutputs (scheduled : List SequenceGroup) (prompt_run : Bool)
    (num_batched_tokens : Nat) (blocks_to_swap_in blocks_to_swap_out : List (Nat × Nat))
    (blocks_to_copy : List (Nat × List Nat)) (ignored : List SequenceGroup) :
    Except SchedError SchedulerOutputs :=
  if !blocks_to_swap_in.isEmpty && !blocks_to_swap_out.isEmpty then
    .error .assertSwapInOut
  else
    let scheduled' :=
      if 0 < num_loras scheduled then sort_by_lora_ids scheduled else scheduled
    .ok ⟨scheduled', prompt_run, num_batched_tokens, blocks_to_swap_in,
      blocks_to_swap_out, blocks_to_copy, ignored⟩

/-- `MLFQScheduler.has_unfinished_seqs` (lines 283-284): the body is
`return self.waiting`, and the truthiness of a `Priority_Queues` object is
`len(self.waiting) > 0` via its `__len__`. -/
def has_unfinished_seqs (st : MLFQScheduler) : Bool :=
  decide (0 < st.waiting.len)

/-- `MLFQScheduler.get_num_unfinished_seq_groups` (lines 286-287). -/
def get_num_unfinished_seq_groups (st : MLFQScheduler) : Nat :=
  st.waiting.len + st.running.length + st.swapped.len

/-- The starvation test of `prevent_starvation` (line 300):
`cur_time - request.metrics.arrival_time >= self.starvation_threshold`. -/
def starvedAt (cur_time thr : Int) (r : SequenceGroup) : Bool :=
  decide (thr ≤ cur_time - r.arrival_time)

/-- The drain loop of `prevent_starvation` over one level (lines 297-303):
pop every request; starved ones accumulate into `promote` (in pop order),
the others into `buffer` (in pop order). -/
def drainLevel (cur_time thr : Int) :
    List SequenceGroup → List SequenceGroup × List SequenceGroup
  | [] => ([], [])
  | r :: rest =>
    let p := drainLevel cur_time thr rest
    if starvedAt cur_time thr r then (r :: p.1, p.2) else (p.1, r :: p.2)

/-- `MLFQScheduler.prevent_starvation(priority_queues)` (lines 289-311):
drain each level, re-enqueue the non-starved at the back of their level, then
set every promoted request's priority to 0 and `push_front` it into the
ladder, in pop order.  `cur_time` models the internal `time.monotonic()`. -/
def prevent_starvation (cur_time thr : Int) (qs : Priority_Queues) : Priority_Queues :=
  let drained := qs.queues.map (fun q => (q, drainLevel cur_time thr q.requests))
  let promote := (drained.map (fun p => p.2.1)).flatten
  let qs1 : Priority_Queues := ⟨drained.map (fun p => { p.1 with requests := p.2.2 })⟩
  promote.foldl (fun acc r => acc.push_front (r.set_priority 0)) qs1

/-- The nested helper `waiting_get_heigher_priorty` of `_schedule`
(lines 322-333): when both ladders are non-empty it pops the head of each,
reads its priority and arrival time, pushes both back to the front, and
returns whether the waiting head dominates; it returns `false` otherwise.
The (possibly) mutated scheduler state is returned alongside. -/
def waiting_get_heigher_priorty (st : MLFQScheduler) : Bool × MLFQScheduler :=
  if decide (0 < st.swapped.len) && decide (0 < st.waiting.len) then
    match st.swapped.pop_front with
    | none => (false, st)
    | some (s, swapped1) =>
      match st.waiting.pop_front with
      | none => (false, st)
      | some (w, waiting1) =>
        let st1 := { st with swapped := swapped1.push_front s,
                             waiting := waiting1.push_front w }
        (decide (s.priority ≤ w.priority) && decide (w.arrival_time ≤ s.arrival_time), st1)
  else (false, st)

/-- The phase condition of `_schedule` (line 336):
`len(self.swapped) == 0 or waiting_get_heigher_priorty(self)`. -/
def prompt_phase_condition (st : MLFQScheduler) : Bool :=
  st.swapped.len == 0 || (waiting_get_heigher_priorty st).1

/-- `MLFQScheduler.free_finished_seq_groups` (lines 582-597): drop finished
groups from running; an unfinished group whose service time exceeds the
quantum of its level is demoted (priority + 1, arrival time refreshed) and
pushed to the front of the swapped ladder, otherwise it stays in running.
`now` models the per-iteration `time.monotonic()` readings. -/
def free_finished_seq_groups (cfg : SchedCfg) (now : Int) (st : MLFQScheduler) :
    MLFQScheduler :=
  let step := st.running.foldl
    (fun (acc : List SequenceGroup × Priority_Queues) g =>
      if g.is_finished then acc
      else if decide (cfg.base_quantum * cfg.threshold ^ g.priority < now - g.arrival_time) then
        let g1 := { g with priority := g.priority + 1, arrival_time := now }
        (acc.1, acc.2.push_front g1)
      else (acc.1 ++ [g], acc.2))
    ([], st.swapped)
  { st with running := step.1, swapped := step.2 }

/-- `max(l)` for a non-empty Python list (`0` on `[]`, unused there). -/
def maxNat (l : List Nat) : Nat := l.foldr max 0

/-- Sum of `get_max_num_running_seqs()` over a pool (lines 341-342, 475-476). -/
def sumMaxRun (l : List SequenceGroup) : Nat :=
  (l.map (fun g => g.max_num_running_seqs)).sum

/-- The Python set of `lora_int_id`s of the running pool (lines 343-345,
477-479), as a duplicate-free list. -/
def lorasOf (l : List SequenceGroup) : List Nat :=
  l.foldl (fun acc g => if acc.contains g.lora_int_id then acc else acc ++ [g.lora_int_id]) []

/-- `set.add` on the duplicate-free-list model of a Python set. -/
def setInsert (s : List Nat) (x : Nat) : List Nat :=
  if s.contains x then s else s ++ [x]

/-- Status flip of `_allocate` (lines 600-603): every WAITING sequence
becomes RUNNING. -/
def allocateFlip (g : SequenceGroup) : SequenceGroup :=
  { g with seqs := (g.seqs.map
      (fun s => if s.status == .WAITING then { s with status := .RUNNING } else s)) }

/-- The status flip on ignore (lines 364-365, 378-379): every WAITING
sequence becomes FINISHED_IGNORED. -/
def markIgnoredWaiting (g : SequenceGroup) : SequenceGroup :=
  { g with seqs := (g.seqs.map
      (fun s => if s.status == .WAITING then { s with status := .FINISHED_IGNORED } else s)) }

/-- The adapter-slot gating of the admission and swap-in loops
(lines 383-391, 485-493): skip the request when adapters are enabled, the
request uses one that is not already in `curr_loras`, and all adapter slots
are taken.  `lora_int_id` is `seq_group.lora_int_id` when adapters are
enabled and `0` otherwise. -/
def admLoraSkip (cfg : SchedCfg) (curr_loras : List Nat) (g : SequenceGroup) : Bool :=
  let lora_int_id := if cfg.lora_enabled then g.lora_int_id else 0
  cfg.lora_enabled && decide (0 < lora_int_id) && !(curr_loras.contains lora_int_id) &&
    decide (cfg.max_loras ≤ curr_loras.length)

/-- The loop state of the prompt-phase admission loop (lines 337-420).
`leftover` models `leftover_waiting_sequences` (a deque; `appendleft` is
modelled by `::`).  `clk` is the block-manager call counter. -/
structure AdmState where
  waiting : Priority_Queues
  running : List SequenceGroup
  num_curr_seqs : Nat
  curr_loras : List Nat
  seq_lens : List Nat
  scheduled : List SequenceGroup
  ignored : List SequenceGroup
  leftover : List SequenceGroup
  clk : Nat
deriving DecidableEq, Repr

/-- One iteration of the admission `while` loop (lines 352-420).  The
returned flag is `true` when the iteration executed `break` (and also in the
unreachable case of an empty waiting ladder, where the loop guard would have
stopped the loop anyway). -/
def admissionStep (cfg : SchedCfg) (bm : BlockManager) (st : AdmState) :
    Except SchedError (AdmState × Bool) :=
  match st.waiting.pop_front with
  | none => .ok (st, true)
  | some (seq_group, waiting1) =>
    let st := { st with waiting := waiting1 }
    match seq_group.get_seqs .WAITING with
    | [ws] =>
      let num_prompt_tokens := ws.len
      if cfg.prompt_limit < num_prompt_tokens then
        .ok ({ st with ignored := st.ignored ++ [markIgnoredWaiting seq_group] }, false)
      else
        let can_allocate := bm.can_allocate st.clk seq_group
        let st := { st with clk := st.clk + 1 }
        match can_allocate with
        | .LATER => .ok ({ st with waiting := st.waiting.push_front seq_group }, true)
        | .NEVER =>
          .ok ({ st with ignored := st.ignored ++ [markIgnoredWaiting seq_group] }, false)
        | .OK =>
          let lora_int_id := if cfg.lora_enabled then seq_group.lora_int_id else 0
          if admLoraSkip cfg st.curr_loras seq_group then
            .ok ({ st with leftover := seq_group :: st.leftover }, false)
          else
            let new_seq_lens := st.seq_lens ++ [num_prompt_tokens]
            let num_batched_tokens := new_seq_lens.length * maxNat new_seq_lens
            if cfg.max_num_batched_tokens < num_batched_tokens then
              .ok ({ st with waiting := st.waiting.push_front seq_group }, true)
            else
              let num_new_seqs := seq_group.max_num_running_seqs
              if cfg.max_num_seqs < st.num_curr_seqs + num_new_seqs then
                .ok ({ st with waiting := st.waiting.push_front seq_group }, true)
              else
                let num_paddings := num_batched_tokens - new_seq_lens.sum
                if cfg.max_paddings < num_paddings then
                  .ok ({ st with waiting := st.waiting.push_front seq_group }, true)
                else
                  let curr_loras1 :=
                    if 0 < lora_int_id then setInsert st.curr_loras lora_int_id
                    else st.curr_loras
                  let sg1 := allocateFlip seq_group
                  .ok ({ st with
                          seq_lens := new_seq_lens,
                          curr_loras := curr_loras1,
                          clk := st.clk + 1,
                          running := st.running ++ [sg1],
                          num_curr_seqs := st.num_curr_seqs + num_new_seqs,
                          scheduled := st.scheduled ++ [sg1] }, false)
    | _ => .error .assertWaitingSeqs

/-- The admission `while` loop (line 352), iterated on fuel.  `_schedule`
calls it with fuel `st.waiting.len`, which is exact: every non-breaking
iteration removes one request from the waiting ladder, so the fuel runs out
precisely when the ladder is empty and the loop guard would stop. -/
def admissionLoop (cfg : SchedCfg) (bm : BlockManager) :
    Nat → AdmState → Except SchedError AdmState
  | 0, st => .ok st
  | fuel + 1, st =>
    if 0 < st.waiting.len then
      match admissionStep cfg bm st with
      | .error e => .error e
      | .ok (st1, true) => .ok st1
      | .ok (st1, false) => admissionLoop cfg bm fuel st1
    else .ok st

/-- Modelled from the spec: the external scheduling policy obtained by
`PolicyFactory.get_policy(policy_name="mlfq")` (`vllm.core.policy`, not under
`src/`).  Per the spec's preemption-engine section, running is sorted so that
a smaller priority number is served first and, within a level, an earlier
arrival wins; the sort is stable and `now` is not consulted. -/
def policy_sort_by_priority (now : Int) (l : List SequenceGroup) : List SequenceGroup :=
  let _ := now
  stableSortBy
    (fun a b => a.priority < b.priority ||
      (a.priority == b.priority && a.arrival_time ≤ b.arrival_time)) l

/-- The state threaded through the decode-phase preemption loop:
the swapped ladder, the two block dicts it can touch, and the
block-manager call counter. -/
structure DecodeSt where
  swapped : Priority_Queues
  b2so : List (Nat × Nat)
  b2c : List (Nat × List Nat)
  clk : Nat
deriving DecidableEq, Repr

/-- Status flip of `_swap_out` (lines 692-693): RUNNING becomes SWAPPED. -/
def swapOutFlip (g : SequenceGroup) : SequenceGroup :=
  { g with seqs := (g.seqs.map
      (fun s => if s.status == .RUNNING then { s with status := .SWAPPED } else s)) }

/-- Status flip of `_swap_in` (lines 676-677): SWAPPED becomes RUNNING. -/
def swapInFlip (g : SequenceGroup) : SequenceGroup :=
  { g with seqs := (g.seqs.map
      (fun s => if s.status == .SWAPPED then { s with status := .RUNNING } else s)) }

/-- `MLFQScheduler._swap_out` (lines 679-693): raise when the block manager
refuses, otherwise merge the device-to-host mapping into
`blocks_to_swap_out` and flip the RUNNING sequences to SWAPPED. -/
def _swap_out (bm : BlockManager) (g : SequenceGroup) (ds : DecodeSt) :
    Except SchedError (SequenceGroup × DecodeSt) :=
  let can := bm.can_swap_out ds.clk g
  let ds := { ds with clk := ds.clk + 1 }
  if !can then .error .swapSpaceExhausted
  else
    let mapping := bm.swap_out_map ds.clk g
    let ds := { ds with clk := ds.clk + 1, b2so := dictUpdate ds.b2so mapping }
    .ok (swapOutFlip g, ds)

/-- `MLFQScheduler._preempt_by_swap` (lines 661-667): `_swap_out`, then push
the group to the back of the swapped ladder.  Both decode-phase call sites of
`_preempt` (lines 458, 463) pass `PreemptionMode.SWAP` explicitly, so the
mode dispatch of `_preempt` always lands here. -/
def _preempt_by_swap (bm : BlockManager) (g : SequenceGroup) (ds : DecodeSt) :
    Except SchedError (SequenceGroup × DecodeSt) :=
  match _swap_out bm g ds with
  | .error e => .error e
  | .ok (g1, ds1) => .ok (g1, { ds1 with swapped := ds1.swapped.push_back g1 })

/-- `MLFQScheduler._append_slot` (lines 605-617) restricted to the data it
touches: one `append_slot` block-manager call per RUNNING sequence, each
possibly recording a copy-on-write directive in `blocks_to_copy`. -/
def appendSlotFold (bm : BlockManager) (g : SequenceGroup)
    (b2c : List (Nat × List Nat)) (clk : Nat) : List (Nat × List Nat) × Nat :=
  (g.get_seqs .RUNNING).foldl
    (fun (acc : List (Nat × List Nat) × Nat) sq =>
      match bm.append_slot_ret acc.2 sq with
      | some sd => (copyAdd acc.1 sd.1 sd.2, acc.2 + 1)
      | none => (acc.1, acc.2 + 1))
    (b2c, clk)

/-- The nested preemption loops of the decode phase (lines 450-470), compiled
to one tail-recursive function.  `cur = some g` means the inner
`while not can_append_slot(g)` loop is active for `g`; `cur = none` means the
outer loop is about to pop the next group from `run_in`.  `run_out` is the
rebuilt running deque, `preempted` the preempted list.  The fuel
`2 * |running| + 2` used by the caller strictly dominates the number of
steps (every step either consumes fuel with `cur` switching from `none` to
`some`, or removes a group for good). -/
def decodeGo (bm : BlockManager) :
    Nat → Option SequenceGroup → List SequenceGroup → List SequenceGroup →
    List SequenceGroup → DecodeSt →
    Except SchedError (List SequenceGroup × List SequenceGroup × DecodeSt)
  | 0, _, _, run_out, preempted, ds => .ok (run_out, preempted, ds)
  | _ + 1, none, [], run_out, preempted, ds => .ok (run_out, preempted, ds)
  | fuel + 1, none, g :: rest, run_out, preempted, ds =>
    decodeGo bm fuel (some g) rest run_out preempted ds
  | fuel + 1, some g, run_in, run_out, preempted, ds =>
    let can := bm.can_append_slot ds.clk g
    let ds1 := { ds with clk := ds.clk + 1 }
    if can then
      let bc := appendSlotFold bm g ds1.b2c ds1.clk
      decodeGo bm fuel none run_in (run_out ++ [g]) preempted
        { ds1 with b2c := bc.1, clk := bc.2 }
    else
      match run_in.getLast? with
      | some victim =>
        match _preempt_by_swap bm victim ds1 with
        | .error e => .error e
        | .ok (v1, ds2) =>
          decodeGo bm fuel (some g) run_in.dropLast run_out (preempted ++ [v1]) ds2
      | none =>
        match _preempt_by_swap bm g ds1 with
        | .error e => .error e
        | .ok (g1, ds2) => decodeGo bm fuel none [] run_out (preempted ++ [g1]) ds2

/-- The loop state of the swap-in controller (lines 474-515). -/
structure SwapSt where
  swapped : Priority_Queues
  running : List SequenceGroup
  num_curr_seqs : Nat
  curr_loras : List Nat
  leftover_swapped : List SequenceGroup
  b2si : List (Nat × Nat)
  b2c : List (Nat × List Nat)
  clk : Nat
deriving DecidableEq, Repr

/-- The swap-in `while` loop (lines 483-513), iterated on fuel; the caller
passes fuel `swapped.len`, which is exact: every non-breaking iteration
removes one request from the swapped ladder. -/
def swapInLoop (cfg : SchedCfg) (bm : BlockManager) : Nat → SwapSt → SwapSt
  | 0, s => s
  | fuel + 1, s =>
    match s.swapped.pop_front with
    | none => s
    | some (seq_group, swapped1) =>
      let s := { s with swapped := swapped1 }
      let lora_int_id := if cfg.lora_enabled then seq_group.lora_int_id else 0
      if admLoraSkip cfg s.curr_loras seq_group then
        swapInLoop cfg bm fuel { s with leftover_swapped := seq_group :: s.leftover_swapped }
      else
        let can := bm.can_swap_in s.clk seq_group
        let s := { s with clk := s.clk + 1 }
        if !can then { s with swapped := s.swapped.push_front seq_group }
        else
          let num_new_seqs := seq_group.max_num_running_seqs
          if cfg.max_num_seqs < s.num_curr_seqs + num_new_seqs then
            { s with swapped := s.swapped.push_front seq_group }
          else
            let curr_loras1 :=
              if 0 < lora_int_id then setInsert s.curr_loras lora_int_id else s.curr_loras
            let mapping := bm.swap_in_map s.clk seq_group
            let b2si1 := dictUpdate s.b2si mapping
            let sg1 := swapInFlip seq_group
            let bc := appendSlotFold bm sg1 s.b2c (s.clk + 1)
            swapInLoop cfg bm fuel
              { s with curr_loras := curr_loras1, b2si := b2si1, b2c := bc.1,
                       clk := bc.2, num_curr_seqs := s.num_curr_seqs + num_new_seqs,
                       running := s.running ++ [sg1] }

/-- The decode phase of `_schedule` (lines 443-539): policy sort, the
preemption loop, the swap-in controller (only when nothing was preempted),
the iteration-counter increment with the starvation guard, and the final
plan construction. -/
def decodePhase (cfg : SchedCfg) (bm : BlockManager) (now : Int) (st : MLFQScheduler)
    (b2si b2so : List (Nat × Nat)) (b2c : List (Nat × List Nat)) (clk : Nat) :
    Except SchedError (MLFQScheduler × SchedulerOutputs × Nat) :=
  let sorted_running := policy_sort_by_priority now st.running
  match decodeGo bm (2 * sorted_running.length + 2) none sorted_running [] []
      ⟨st.swapped, b2so, b2c, clk⟩ with
  | .error e => .error e
  | .ok (run_out, preempted, ds) =>
    let st1 := { st with running := run_out, swapped := ds.swapped }
    let after :=
      if preempted.isEmpty then
        let sw0 : SwapSt :=
          ⟨st1.swapped, st1.running, sumMaxRun st1.running,
            (if cfg.lora_enabled then lorasOf st1.running else []), [], b2si, ds.b2c, ds.clk⟩
        let sw := swapInLoop cfg bm sw0.swapped.len sw0
        ({ st1 with swapped := sw.swapped.extend_front sw.leftover_swapped,
                    running := sw.running }, sw.b2si, sw.b2c, sw.clk)
      else (st1, b2si, ds.b2c, ds.clk)
    let st2 := after.1
    let st3 := { st2 with iteration_num := st2.iteration_num + 1 }
    let st4 :=
      if st3.iteration_num % cfg.starvation_period == 0 then
        { st3 with waiting := prevent_starvation now cfg.starvation_threshold st3.waiting,
                   swapped := prevent_starvation now cfg.starvation_threshold st3.swapped }
      else st3
    let nbt := (st4.running.map (fun g => g.num_seqs .RUNNING)).sum
    match mkSchedulerOutputs st4.running false nbt after.2.1 ds.b2so after.2.2.1 [] with
    | .error e => .error e
    | .ok out => .ok (st4, out, after.2.2.2)

/-- `num_batched_tokens` of a prompt plan (lines 434-435):
`len(seq_lens) * max(seq_lens) if seq_lens else 0`. -/
def promptNBT (seq_lens : List Nat) : Nat := seq_lens.length * maxNat seq_lens

/-- The prompt-admission branch of `_schedule` (lines 336-441): run the
admission loop over the waiting ladder, restore the adapter-skipped leftover,
increment the iteration counter and run the starvation guard, and emit a
prompt plan when anything was scheduled or ignored — otherwise fall through
to the decode phase.  The swap/copy dicts are still the empty ones created at
the top of `_schedule`. -/
def promptBranch (cfg : SchedCfg) (bm : BlockManager) (now : Int) (st : MLFQScheduler)
    (clk : Nat) : Except SchedError (MLFQScheduler × SchedulerOutputs × Nat) :=
  let adm0 : AdmState :=
    ⟨st.waiting, st.running, sumMaxRun st.running,
      (if cfg.lora_enabled then lorasOf st.running else []), [], [], [], [], clk⟩
  match admissionLoop cfg bm adm0.waiting.len adm0 with
  | .error e => .error e
  | .ok a =>
    let st1 := { st with waiting := a.waiting.extend_front a.leftover,
                         running := a.running }
    let st2 := { st1 with iteration_num := st1.iteration_num + 1 }
    let st3 :=
      if st2.iteration_num % cfg.starvation_period == 0 then
        { st2 with waiting := prevent_starvation now cfg.starvation_threshold st2.waiting,
                   swapped := prevent_starvation now cfg.starvation_threshold st2.swapped }
      else st2
    if !a.scheduled.isEmpty || !a.ignored.isEmpty then
      match mkSchedulerOutputs a.scheduled true (promptNBT a.seq_lens)
          [] [] [] a.ignored with
      | .error e => .error e
      | .ok out => .ok (st3, out, a.clk)
    else decodePhase cfg bm now st3 [] [] [] a.clk

/-- `MLFQScheduler._schedule` (lines 313-539).  `now` models the single
`time.monotonic()` reading fixed at the top of the call (the further readings
inside `prevent_starvation` during the same call are identified with it);
`clk` is the block-manager call counter.  The branch structure mirrors the
short-circuit condition of line 336: `waiting_get_heigher_priorty` is called
(and mutates the ladders — restoring them when they are well-formed) only
when the swapped pool is non-empty.  Returns the updated scheduler state,
the plan, and the new call counter — or the fatal error. -/
def _schedule (cfg : SchedCfg) (bm : BlockManager) (now : Int) (st : MLFQScheduler)
    (clk : Nat) : Except SchedError (MLFQScheduler × SchedulerOutputs × Nat) :=
  if st.swapped.len == 0 then promptBranch cfg bm now st clk
  else
    let pr := waiting_get_heigher_priorty st
    if pr.1 then promptBranch cfg bm now pr.2 clk
    else decodePhase cfg bm now pr.2 [] [] [] clk

/-! ## Basic ladder lemmas -/

theorem popFrontAux_eq_none_iff (l : List Priority_Queue) :
    popFrontAux l = none ↔ (l.map (fun q => q.requests.length)).sum = 0 := by
  induction l with
  | nil => simp [popFrontAux]
  | cons q rest ih =>
    cases hq : q.requests with
    | nil => simp [popFrontAux, hq, Option.map_eq_none', ih]
    | cons r rs => simp [popFrontAux, hq]

theorem pop_front_eq_none_iff (qs : Priority_Queues) :
    qs.pop_front = none ↔ qs.len = 0 := by
  unfold Priority_Queues.pop_front Priority_Queues.len
  rw [Option.map_eq_none']
  exact popFrontAux_eq_none_iff qs.queues

theorem pop_front_of_pos (qs : Priority_Queues) (h : 0 < qs.len) :
    ∃ r qs', qs.pop_front = some (r, qs') := by
  cases hp : qs.pop_front with
  | none => rw [pop_front_eq_none_iff] at hp; omega
  | some p => exact ⟨p.1, p.2, rfl⟩

theorem popFrontAux_len (l : List Priority_Queue) (r : SequenceGroup)
    (l' : List Priority_Queue) (h : popFrontAux l = some (r, l')) :
    (l'.map (fun q => q.requests.length)).sum + 1
      = (l.map (fun q => q.requests.length)).sum := by
  induction l generalizing l' with
  | nil => simp [popFrontAux] at h
  | cons q rest ih =>
    cases hq : q.requests with
    | nil =>
      rw [popFrontAux, hq] at h
      cases hp : popFrontAux rest with
      | none => rw [hp] at h; simp at h
      | some p =>
        rw [hp] at h
        simp only [Option.map_some'] at h
        cases h
        have := ih p.2 (by rw [hp])
        simp [hq]
        omega
    | cons r0 rs =>
      rw [popFrontAux, hq] at h
      simp only [Option.some.injEq, Prod.mk.injEq] at h
      obtain ⟨h1, h2⟩ := h
      subst h2
      simp [hq]
      omega

theorem pop_front_len (qs : Priority_Queues) (r : SequenceGroup) (qs' : Priority_Queues)
    (h : qs.pop_front = some (r, qs')) : qs'.len + 1 = qs.len := by
  unfold Priority_Queues.pop_front at h
  cases hp : popFrontAux qs.queues with
  | none => rw [hp] at h; simp at h
  | some p =>
    rw [hp] at h
    simp only [Option.map_some'] at h
    cases h
    exact popFrontAux_len qs.queues p.1 p.2 (by rw [hp])

/-! ## C3: `has_unfinished_seqs` -/

/-- An unfinished request (one RUNNING sequence). -/
def gRun : SequenceGroup := ⟨1, 0, 0, 0, none, 1, [⟨0, .RUNNING, 5⟩]⟩

/-- A scheduler state whose waiting ladder is empty while `gRun` is running. -/
def stRunOnly : MLFQScheduler := ⟨⟨[]⟩, [gRun], ⟨[]⟩, 0⟩

/-- C3, code bug: `has_unfinished_seqs` (line 284) returns only the waiting
ladder's truthiness, so with an empty waiting ladder and a non-empty running
deque it returns `false`, although an unfinished request exists — and the
sibling `get_num_unfinished_seq_groups` (line 287) counts it.  The claim
"true iff any of the three pools is non-empty" fails on this state. -/
theorem has_unfinished_seqs_misses_running :
    has_unfinished_seqs stRunOnly = false ∧ stRunOnly.running ≠ [] ∧
    gRun.is_finished = false ∧ 0 < get_num_unfinished_seq_groups stRunOnly := by
  decide

/-! ## C5: the phase-selection condition -/

/-- C5: `_schedule` selects the prompt-admission phase exactly when the
swapped pool is empty, or both pools are non-empty and the waiting head's
priority is numerically at least the swapped head's priority while its
arrival time is at most the swapped head's arrival time (lines 322-336). -/
theorem prompt_phase_condition_iff (st : MLFQScheduler) :
    prompt_phase_condition st = true ↔
      (st.swapped.len = 0 ∨
        (0 < st.swapped.len ∧ 0 < st.waiting.len ∧
          ∃ w s, st.waiting.front? = some w ∧ st.swapped.front? = some s ∧
            s.priority ≤ w.priority ∧ w.arrival_time ≤ s.arrival_time)) := by
  unfold prompt_phase_condition waiting_get_heigher_priorty
  by_cases hs : st.swapped.len = 0
  · simp [hs]
  · have hspos : 0 < st.swapped.len := Nat.pos_of_ne_zero hs
    by_cases hw : 0 < st.waiting.len
    · obtain ⟨ws, swq, hpops⟩ := pop_front_of_pos st.swapped hspos
      obtain ⟨ww, waq, hpopw⟩ := pop_front_of_pos st.waiting hw
      simp [hs, hspos, hw, hpops, hpopw, Priority_Queues.front?]
    · have hw0 : st.waiting.len = 0 := by omega
      simp [hs, hspos, hw0, hw]

/-! ## C10: the head comparison restores both ladders -/

theorem popFrontAux_restore (l : List Priority_Queue) (k : Nat) (r : SequenceGroup)
    (l' : List Priority_Queue) (hwf : wfbAux k l = true)
    (hpop : popFrontAux l = some (r, l')) :
    k ≤ r.priority ∧ r.priority - k < l'.length ∧
      modifyAt l' (r.priority - k) (fun q => q.push_front r) = l := by
  induction l generalizing k l' with
  | nil => simp [popFrontAux] at hpop
  | cons q rest ih =>
    rw [wfbAux] at hwf
    simp only [Bool.and_eq_true, List.all_eq_true, beq_iff_eq] at hwf
    obtain ⟨hq, hrest⟩ := hwf
    cases hreq : q.requests with
    | cons r0 rs =>
      rw [popFrontAux, hreq] at hpop
      simp only [Option.some.injEq, Prod.mk.injEq] at hpop
      obtain ⟨hr, hl'⟩ := hpop
      subst hl'
      have hpri : r.priority = k := by
        rw [← hr]; exact hq r0 (by rw [hreq]; exact List.mem_cons_self r0 rs)
      refine ⟨le_of_eq hpri.symm, by simp [hpri], ?_⟩
      rw [hpri, Nat.sub_self, modifyAt, ← hr, Priority_Queue.push_front]
      cases q
      simp only at hreq
      simp [hreq]
    | nil =>
      rw [popFrontAux, hreq] at hpop
      cases hp : popFrontAux rest with
      | none => rw [hp] at hpop; simp at hpop
      | some p =>
        rw [hp] at hpop
        simp only [Option.map_some', Option.some.injEq, Prod.mk.injEq] at hpop
        obtain ⟨hr, hl'⟩ := hpop
        obtain ⟨hk, hlt, hmod⟩ := ih (k + 1) p.2 hrest (by rw [hp, ← hr])
        subst hl'
        have hk' : k ≤ r.priority := by omega
        refine ⟨hk', by simp; omega, ?_⟩
        have hsub : r.priority - k = (r.priority - (k + 1)) + 1 := by omega
        rw [hsub, modifyAt, hmod]

theorem push_front_pop_front_restore (qs : Priority_Queues) (r : SequenceGroup)
    (qs' : Priority_Queues) (hwf : qs.wfb = true)
    (hpop : qs.pop_front = some (r, qs')) : qs'.push_front r = qs := by
  unfold Priority_Queues.pop_front at hpop
  cases hps : popFrontAux qs.queues with
  | none => rw [hps] at hpop; simp at hpop
  | some p =>
    rw [hps] at hpop
    simp only [Option.map_some', Option.some.injEq, Prod.mk.injEq] at hpop
    obtain ⟨h1, h2⟩ := hpop
    rw [← h1, ← h2]
    obtain ⟨hk, hlt, hmod⟩ := popFrontAux_restore qs.queues 0 p.1 p.2 hwf (by rw [hps])
    rw [Nat.sub_zero] at hlt hmod
    unfold Priority_Queues.push_front Priority_Queues.add_new_queue
    simp only [if_neg (Nat.not_le.mpr hlt)]
    rw [hmod]

/-- C10: when both ladders satisfy the ladder invariant and the phase
comparison runs (pop each head, read its fields, push both back to the
front), both ladders — and hence the whole scheduler state — are left
exactly as they were (lines 322-333). -/
theorem head_comparison_restores_ladders (st : MLFQScheduler)
    (hw : st.waiting.wfb = true) (hs : st.swapped.wfb = true) :
    (waiting_get_heigher_priorty st).2 = st := by
  unfold waiting_get_heigher_priorty
  by_cases hg : (decide (0 < st.swapped.len) && decide (0 < st.waiting.len)) = true
  · rw [if_pos hg]
    simp only [Bool.and_eq_true, decide_eq_true_eq] at hg
    obtain ⟨ws, swq, hpops⟩ := pop_front_of_pos st.swapped hg.1
    obtain ⟨ww, waq, hpopw⟩ := pop_front_of_pos st.waiting hg.2
    rw [hpops, hpopw]
    simp only [push_front_pop_front_restore st.swapped ws swq hs hpops,
      push_front_pop_front_restore st.waiting ww waq hw hpopw]
  · rw [if_neg hg]

/-- A request used to exercise the waiting head in the C10 witness. -/
def gWait : SequenceGroup := ⟨3, 0, 0, 0, none, 1, [⟨0, .WAITING, 4⟩]⟩

/-- A request used to exercise the swapped head in the C10 witness. -/
def gSwap : SequenceGroup := ⟨4, 0, 1, 0, none, 1, [⟨0, .SWAPPED, 4⟩]⟩

/-- A scheduler state with non-empty waiting and swapped ladders. -/
def stBoth : MLFQScheduler :=
  ⟨⟨[⟨0, [gWait]⟩]⟩, [], ⟨[⟨0, [gSwap]⟩]⟩, 0⟩

/-- C10 witness: the restoration theorem applied at a concrete state in which
the comparison actually pops and pushes both heads. -/
theorem head_comparison_restores_ladders_witness :
    stBoth.waiting.wfb = true ∧ stBoth.swapped.wfb = true ∧
      (waiting_get_heigher_priorty stBoth).2 = stBoth :=
  ⟨by decide, by decide,
    head_comparison_restores_ladders stBoth (by decide) (by decide)⟩

/-! ## C9: a non-empty scheduled list is always re-sorted -/

theorem lora_requests_foldl_ne_nil (l : List SequenceGroup) (acc : List (Option Nat))
    (h : acc ≠ []) :
    l.foldl (fun acc g =>
      if acc.contains g.lora_request then acc else acc ++ [g.lora_request]) acc ≠ [] := by
  induction l generalizing acc with
  | nil => exact h
  | cons g rest ih =>
    rw [List.foldl_cons]
    by_cases hc : acc.contains g.lora_request
    · rw [if_pos hc]; exact ih acc h
    · rw [if_neg hc]; exact ih _ (by simp)

theorem num_loras_pos (l : List SequenceGroup) (h : l ≠ []) : 0 < num_loras l := by
  unfold num_loras
  cases l with
  | nil => exact absurd rfl h
  | cons g rest =>
    have hne : lora_requests (g :: rest) ≠ [] := by
      unfold lora_requests
      rw [List.foldl_cons]
      exact lora_requests_foldl_ne_nil rest _ (by simp)
    exact List.length_pos.mpr hne

theorem lora_requests_all_none (l : List SequenceGroup) (acc : List (Option Nat))
    (hl : ∀ g ∈ l, g.lora_request = none) (hacc : acc.contains (none : Option Nat) = true) :
    l.foldl (fun acc g =>
      if acc.contains g.lora_request then acc else acc ++ [g.lora_request]) acc = acc := by
  induction l with
  | nil => rfl
  | cons g rest ih =>
    rw [List.foldl_cons]
    have hg : g.lora_request = none := hl g (List.mem_cons_self g rest)
    rw [hg, if_pos hacc]
    exact ih (fun x hx => hl x (List.mem_cons_of_mem g hx))

/-- C9: whenever `SchedulerOutputs` is constructed with a non-empty scheduled
list, the stored scheduled list is the stably `(lora_int_id, request_id)`-
sorted one — even when no scheduled request uses an adapter, because the set
`{g.lora_request for g in scheduled}` then contains `None`, so `num_loras` is
`1 > 0` and `_sort_by_lora_ids` runs (lines 52-55, 62-69).  A decode plan's
order therefore need not preserve the priority-sorted running order. -/
theorem nonempty_scheduled_always_sorted (scheduled : List SequenceGroup)
    (pr : Bool) (nbt : Nat) (b2si b2so : List (Nat × Nat)) (b2c : List (Nat × List Nat))
    (ig : List SequenceGroup) (out : SchedulerOutputs)
    (hne : scheduled ≠ [])
    (hok : mkSchedulerOutputs scheduled pr nbt b2si b2so b2c ig = .ok out) :
    out.scheduled_seq_groups = sort_by_lora_ids scheduled ∧
      0 < num_loras scheduled ∧
      ((∀ g ∈ scheduled, g.lora_request = none) → num_loras scheduled = 1) := by
  have hpos := num_loras_pos scheduled hne
  refine ⟨?_, hpos, ?_⟩
  · unfold mkSchedulerOutputs at hok
    by_cases hsw : (!b2si.isEmpty && !b2so.isEmpty) = true
    · rw [if_pos hsw] at hok; exact absurd hok (by simp)
    · rw [if_neg hsw] at hok
      simp only [if_pos hpos, Except.ok.injEq] at hok
      rw [← hok]
  · intro hall
    cases scheduled with
    | nil => exact absurd rfl hne
    | cons g rest =>
      have hg : g.lora_request = none := hall g (List.mem_cons_self g rest)
      unfold num_loras lora_requests
      rw [List.foldl_cons]
      simp only [List.contains_nil, Bool.false_eq_true, if_false, List.nil_append, hg]
      rw [lora_requests_all_none rest [none]
        (fun x hx => hall x (List.mem_cons_of_mem g hx)) (by simp)]
      rfl

/-- Two adapter-free requests whose ids are out of order. -/
def gId2 : SequenceGroup := ⟨2, 0, 0, 0, none, 1, []⟩

/-- Second request for the C9 witness. -/
def gId1 : SequenceGroup := ⟨1, 0, 0, 0, none, 1, []⟩

/-- C9 witness: at a concrete adapter-free two-element scheduled list, the
constructor sorts (here: reorders) the scheduled list and counts one
"adapter" (the `None` handle). -/
theorem nonempty_scheduled_always_sorted_witness :
    (⟨[gId1, gId2], false, 0, [], [], [], []⟩ : SchedulerOutputs).scheduled_seq_groups
        = sort_by_lora_ids [gId2, gId1] ∧
      0 < num_loras [gId2, gId1] ∧
      ((∀ g ∈ [gId2, gId1], g.lora_request = none) → num_loras [gId2, gId1] = 1) :=
  nonempty_scheduled_always_sorted [gId2, gId1] false 0 [] [] [] []
    ⟨[gId1, gId2], false, 0, [], [], [], []⟩ (by decide) (by rfl)

/-! ## C6: the starvation guard -/

/-- The promoted requests of one `prevent_starvation` pass, in pop order:
per level from priority 0 up, the starved requests in FIFO order. -/
def promoteList (cur thr : Int) (qs : Priority_Queues) : List SequenceGroup :=
  (qs.queues.map (fun q => (drainLevel cur thr q.requests).1)).flatten

theorem drainLevel_spec (cur thr : Int) (l : List SequenceGroup) :
    (drainLevel cur thr l).1 = l.filter (starvedAt cur thr) ∧
      (drainLevel cur thr l).2 = l.filter (fun r => !starvedAt cur thr r) := by
  induction l with
  | nil => exact ⟨rfl, rfl⟩
  | cons r rest ih =>
    rw [drainLevel]
    by_cases hr : starvedAt cur thr r = true
    · simp [hr, ih.1, ih.2, List.filter_cons]
    · simp only [Bool.not_eq_true] at hr
      simp [hr, ih.1, ih.2, List.filter_cons]

theorem foldl_push_front_zero (promote : List SequenceGroup) (q0 : Priority_Queue)
    (rest : List Priority_Queue) :
    promote.foldl (fun acc r => acc.push_front (r.set_priority 0))
        (⟨q0 :: rest⟩ : Priority_Queues) =
      (⟨({ q0 with requests :=
          ((promote.reverse.map (fun r => r.set_priority 0)) ++ q0.requests) }) :: rest⟩ :
        Priority_Queues) := by
  induction promote generalizing q0 with
  | nil => simp
  | cons r t ih =>
    rw [List.foldl_cons]
    have hstep : (⟨q0 :: rest⟩ : Priority_Queues).push_front (r.set_priority 0) =
        ⟨(q0.push_front (r.set_priority 0)) :: rest⟩ := by
      unfold Priority_Queues.push_front Priority_Queues.add_new_queue
      simp [SequenceGroup.set_priority, modifyAt]
    rw [hstep, ih]
    simp [Priority_Queue.push_front, List.reverse_cons]

/-- C6 counterexample material: two starved requests at level 0, `aFirst`
popped first. -/
def aFirst : SequenceGroup := ⟨1, 0, 0, 0, none, 1, []⟩

/-- Second starved request, popped second. -/
def bSecond : SequenceGroup := ⟨2, 0, 0, 0, none, 1, []⟩

/-- A one-level ladder holding `aFirst` then `bSecond`. -/
def qsStarved : Priority_Queues := ⟨[⟨0, [aFirst, bSecond]⟩]⟩

/-- C6 counterexample: with two starved requests (`now - arrival = 10 ≥ 3`),
the guard pops `aFirst` first but, because each promoted request is
`push_front`-ed in pop order, `bSecond` ends up at the head: the resulting
level-0 id order is `[2, 1]`, not the claimed pop order `[1, 2]`. -/
theorem starvation_promotion_order_counterexample :
    starvedAt 10 3 aFirst = true ∧ starvedAt 10 3 bSecond = true ∧
      (prevent_starvation 10 3 qsStarved).queues.map
        (fun q => q.requests.map (fun r => r.request_id)) = [[2, 1]] ∧
      [[2, 1]] ≠ [[1, 2]] := by
  decide

/-- C6 as amended: after a starvation-guard pass, every starved request is
promoted to priority 0 and pushed to the front of the ladder, but the
promoted entries end up in **reverse** pop order (the last-popped starved
request first); every non-starved request is re-enqueued at the back of its
current level in its original relative order (lines 289-311). -/
theorem prevent_starvation_characterization (cur thr : Int) (qs : Priority_Queues)
    (q0 : Priority_Queue) (rest : List Priority_Queue) (hqs : qs.queues = q0 :: rest) :
    (prevent_starvation cur thr qs).queues =
      ({ q0 with requests :=
          (((promoteList cur thr qs).reverse.map (fun r => r.set_priority 0)) ++
            q0.requests.filter (fun r => !starvedAt cur thr r)) }) ::
        rest.map (fun q =>
          { q with requests := q.requests.filter (fun r => !starvedAt cur thr r) }) ∧
      promoteList cur thr qs =
        (qs.queues.map (fun q => q.requests.filter (starvedAt cur thr))).flatten := by
  have hpl : promoteList cur thr qs =
      (qs.queues.map (fun q => q.requests.filter (starvedAt cur thr))).flatten := by
    unfold promoteList
    congr 1
    exact List.map_congr_left (fun q _ => (drainLevel_spec cur thr q.requests).1)
  refine ⟨?_, hpl⟩
  have hP : promoteList cur thr qs =
      ((drainLevel cur thr q0.requests).1 ::
        rest.map (fun q => (drainLevel cur thr q.requests).1)).flatten := by
    unfold promoteList
    rw [hqs, List.map_cons]
  have h1 : ∀ l : List SequenceGroup,
      (drainLevel cur thr l).1 = l.filter (starvedAt cur thr) :=
    fun l => (drainLevel_spec cur thr l).1
  have h2 : ∀ l : List SequenceGroup,
      (drainLevel cur thr l).2 = l.filter (fun r => !starvedAt cur thr r) :=
    fun l => (drainLevel_spec cur thr l).2
  simp only [prevent_starvation, List.map_map]
  rw [hqs]
  simp only [List.map_cons, Function.comp_def]
  rw [foldl_push_front_zero]
  simp only [hpl, hqs, List.map_cons, h1, h2]

/-- C6 witness: the characterization applied to the concrete two-request
ladder of the counterexample. -/
theorem prevent_starvation_characterization_witness :
    (prevent_starvation 10 3 qsStarved).queues =
      ({ (⟨0, [aFirst, bSecond]⟩ : Priority_Queue) with requests :=
          (((promoteList 10 3 qsStarved).reverse.map (fun r => r.set_priority 0)) ++
            (⟨0, [aFirst, bSecond]⟩ : Priority_Queue).requests.filter
              (fun r => !starvedAt 10 3 r)) }) ::
        ([] : List Priority_Queue).map (fun q =>
          { q with requests := q.requests.filter (fun r => !starvedAt 10 3 r) }) ∧
      promoteList 10 3 qsStarved =
        (qsStarved.queues.map (fun q => q.requests.filter (starvedAt 10 3))).flatten :=
  prevent_starvation_characterization 10 3 qsStarved ⟨0, [aFirst, bSecond]⟩ [] (by rfl)

/-! ## C8: residency of the swapped ladder -/

/-- The swapped-ladder residency property claimed by the spec: every
unfinished sequence of the group carries SWAPPED status. -/
def groupSwappedOut (g : SequenceGroup) : Bool :=
  g.seqs.all (fun s => s.status.is_finished || s.status == .SWAPPED)

/-- Residency property over a whole ladder. -/
def allSwappedOut (qs : Priority_Queues) : Bool :=
  qs.queues.all (fun q => q.requests.all groupSwappedOut)

/-- A configuration under which `gRun`'s service time exceeds its quantum:
`base_quantum * threshold ^ 0 = 1 < 2 = now - arrival_time`. -/
def cfgQuantum : SchedCfg := ⟨8, 2048, 256, 2048, false, 0, 1, 2, 3, 1000⟩

/-- C8, code bug: the feedback-demotion path of `free_finished_seq_groups`
(lines 582-597) pushes an unfinished, still-RUNNING group into the swapped
ladder without calling `_swap_out`, so the inserted request's sequences are
not SWAPPED (and its KV blocks never moved to host memory) at the moment of
insertion — contradicting the swapped-ladder residency invariant that
`_swap_in` (lines 669-677) relies on.  Here `gRun` (one RUNNING sequence,
arrival 0, priority 0) is demoted at `now = 2`. -/
theorem demotion_inserts_running_into_swapped :
    gRun.is_finished = false ∧
      allSwappedOut (free_finished_seq_groups cfgQuantum 2 stRunOnly).swapped = false ∧
      ((free_finished_seq_groups cfgQuantum 2 stRunOnly).swapped.front?).map
        (fun g => g.seqs.map (fun s => s.status)) = some [.RUNNING] ∧
      (free_finished_seq_groups cfgQuantum 2 stRunOnly).running = [] := by
  decide

/-! ## C2: the admission budgets -/

/-- C2: one admission iteration (lines 352-420) keeps the budgets.
(i) Whenever the iteration accepts a request (the scheduled list grows), the
updated state satisfies all three budgets: the running-sequence count is at
most `max_num_seqs`, the padded token count `|seq_lens| * max(seq_lens)` is
at most `max_num_batched_tokens`, and the padding slack is at most
`max_paddings` (the budget quantities grow monotonically along the loop, so
this holds at every acceptance of a pass).
(ii) `num_curr_seqs` stays equal to the running pool's sequence sum.
(iii) A request that passes the oversize, allocation and adapter guards but
would violate any of the three budgets is pushed back to the front of the
waiting ladder and the loop stops, accepting nothing. -/
theorem admission_budgets_preserved
    (cfg : SchedCfg) (bm : BlockManager) (st st' : AdmState) (b : Bool)
    (hstep : admissionStep cfg bm st = .ok (st', b)) :
    (st'.scheduled ≠ st.scheduled →
       st'.num_curr_seqs ≤ cfg.max_num_seqs ∧
       st'.seq_lens.length * maxNat st'.seq_lens ≤ cfg.max_num_batched_tokens ∧
       st'.seq_lens.length * maxNat st'.seq_lens - st'.seq_lens.sum ≤ cfg.max_paddings) ∧
    (st.num_curr_seqs = sumMaxRun st.running → st'.num_curr_seqs = sumMaxRun st'.running) ∧
    (∀ r w1 ws, st.waiting.pop_front = some (r, w1) →
        r.get_seqs .WAITING = [ws] →
        ws.len ≤ cfg.prompt_limit →
        bm.can_allocate st.clk r = .OK →
        admLoraSkip cfg st.curr_loras r = false →
        (cfg.max_num_batched_tokens <
            (st.seq_lens ++ [ws.len]).length * maxNat (st.seq_lens ++ [ws.len]) ∨
          cfg.max_num_seqs < st.num_curr_seqs + r.max_num_running_seqs ∨
          cfg.max_paddings <
            (st.seq_lens ++ [ws.len]).length * maxNat (st.seq_lens ++ [ws.len]) -
              (st.seq_lens ++ [ws.len]).sum) →
        b = true ∧ st'.waiting = w1.push_front r ∧ st'.scheduled = st.scheduled ∧
          st'.running = st.running) := by
  cases hpop : st.waiting.pop_front with
  | none =>
    rw [admissionStep, hpop] at hstep
    simp only [Except.ok.injEq, Prod.mk.injEq] at hstep
    obtain ⟨rfl, rfl⟩ := hstep
    refine ⟨fun h => absurd rfl h, fun h => h, ?_⟩
    intro r w1 ws hpop2
    exact absurd hpop2 (by simp)
  | some p =>
    obtain ⟨r0, w0⟩ := p
    rw [admissionStep, hpop] at hstep
    simp only at hstep
    cases hws : r0.get_seqs .WAITING with
    | nil => rw [hws] at hstep; exact absurd hstep (by simp)
    | cons ws0 tl =>
      cases tl with
      | cons ws1 tl2 => rw [hws] at hstep; exact absurd hstep (by simp)
      | nil =>
        rw [hws] at hstep
        simp only at hstep
        split at hstep
        case isTrue hbig =>
          -- prompt oversize: ignored
          simp only [Except.ok.injEq, Prod.mk.injEq] at hstep
          obtain ⟨rfl, rfl⟩ := hstep
          refine ⟨fun h => absurd rfl h, fun h => h, ?_⟩
          intro r w1 ws hpop2 hws2 hlen _ _ _
          simp only [Option.some.injEq, Prod.mk.injEq] at hpop2
          obtain ⟨rfl, rfl⟩ := hpop2
          rw [hws] at hws2
          simp only [List.cons.injEq, and_true] at hws2
          subst hws2
          omega
        case isFalse hnotbig =>
          split at hstep
          case h_1 hca =>
            -- LATER
            simp only [Except.ok.injEq, Prod.mk.injEq] at hstep
            obtain ⟨rfl, rfl⟩ := hstep
            refine ⟨fun h => absurd rfl h, fun h => h, ?_⟩
            intro r w1 ws hpop2 _ _ hok _ _
            simp only [Option.some.injEq, Prod.mk.injEq] at hpop2
            obtain ⟨rfl, rfl⟩ := hpop2
            rw [hca] at hok
            exact absurd hok (by simp)
          case h_2 hca =>
            -- NEVER
            simp only [Except.ok.injEq, Prod.mk.injEq] at hstep
            obtain ⟨rfl, rfl⟩ := hstep
            refine ⟨fun h => absurd rfl h, fun h => h, ?_⟩
            intro r w1 ws hpop2 _ _ hok _ _
            simp only [Option.some.injEq, Prod.mk.injEq] at hpop2
            obtain ⟨rfl, rfl⟩ := hpop2
            rw [hca] at hok
            exact absurd hok (by simp)
          case h_3 hca =>
            -- can_allocate OK
            split at hstep
            case isTrue hlora =>
              simp only [Except.ok.injEq, Prod.mk.injEq] at hstep
              obtain ⟨rfl, rfl⟩ := hstep
              refine ⟨fun h => absurd rfl h, fun h => h, ?_⟩
              intro r w1 ws hpop2 _ _ _ hskip _
              simp only [Option.some.injEq, Prod.mk.injEq] at hpop2
              obtain ⟨rfl, rfl⟩ := hpop2
              rw [hlora] at hskip
              exact absurd hskip (by simp)
            case isFalse hlora =>
              split at hstep
              case isTrue htok =>
                simp only [Except.ok.injEq, Prod.mk.injEq] at hstep
                obtain ⟨rfl, rfl⟩ := hstep
                refine ⟨fun h => absurd rfl h, fun h => h, ?_⟩
                intro r w1 ws hpop2 hws2 _ _ _ _
                simp only [Option.some.injEq, Prod.mk.injEq] at hpop2
                obtain ⟨rfl, rfl⟩ := hpop2
                rw [hws] at hws2
                simp only [List.cons.injEq, and_true] at hws2
                subst hws2
                exact ⟨rfl, rfl, rfl, rfl⟩
              case isFalse htok =>
                split at hstep
                case isTrue hseq =>
                  simp only [Except.ok.injEq, Prod.mk.injEq] at hstep
                  obtain ⟨rfl, rfl⟩ := hstep
                  refine ⟨fun h => absurd rfl h, fun h => h, ?_⟩
                  intro r w1 ws hpop2 hws2 _ _ _ _
                  simp only [Option.some.injEq, Prod.mk.injEq] at hpop2
                  obtain ⟨rfl, rfl⟩ := hpop2
                  rw [hws] at hws2
                  simp only [List.cons.injEq, and_true] at hws2
                  subst hws2
                  exact ⟨rfl, rfl, rfl, rfl⟩
                case isFalse hseq =>
                  split at hstep
                  case isTrue hpad =>
                    simp only [Except.ok.injEq, Prod.mk.injEq] at hstep
                    obtain ⟨rfl, rfl⟩ := hstep
                    refine ⟨fun h => absurd rfl h, fun h => h, ?_⟩
                    intro r w1 ws hpop2 hws2 _ _ _ _
                    simp only [Option.some.injEq, Prod.mk.injEq] at hpop2
                    obtain ⟨rfl, rfl⟩ := hpop2
                    rw [hws] at hws2
                    simp only [List.cons.injEq, and_true] at hws2
                    subst hws2
                    exact ⟨rfl, rfl, rfl, rfl⟩
                  case isFalse hpad =>
                    -- accept
                    simp only [Except.ok.injEq, Prod.mk.injEq] at hstep
                    obtain ⟨rfl, rfl⟩ := hstep
                    refine ⟨?_, ?_, ?_⟩
                    · intro _
                      refine ⟨?_, ?_, ?_⟩
                      · show st.num_curr_seqs + r0.max_num_running_seqs ≤ cfg.max_num_seqs
                        omega
                      · show (st.seq_lens ++ [ws0.len]).length *
                            maxNat (st.seq_lens ++ [ws0.len]) ≤ cfg.max_num_batched_tokens
                        omega
                      · show (st.seq_lens ++ [ws0.len]).length *
                              maxNat (st.seq_lens ++ [ws0.len]) -
                            (st.seq_lens ++ [ws0.len]).sum ≤ cfg.max_paddings
                        omega
                    · intro h
                      simp only [sumMaxRun, List.map_append, List.sum_append,
                        List.map_cons, List.sum_cons, List.map_nil, List.sum_nil]
                      simp only [sumMaxRun] at h
                      simp [allocateFlip, h]
                    · intro r w1 ws hpop2 hws2 _ _ _ hbudget
                      simp only [Option.some.injEq, Prod.mk.injEq] at hpop2
                      obtain ⟨rfl, rfl⟩ := hpop2
                      rw [hws] at hws2
                      simp only [List.cons.injEq, and_true] at hws2
                      subst hws2
                      rcases hbudget with hb | hb | hb
                      · omega
                      · omega
                      · omega

/-- A trivially permissive block manager used by witnesses. -/
def bmBasic : BlockManager :=
  ⟨fun _ _ => .OK, fun _ _ => true, fun _ _ => true, fun _ _ => true,
    fun _ _ => [], fun _ _ => [], fun _ _ => none⟩

/-- Admission state holding one short prompt request. -/
def admBefore : AdmState := ⟨⟨[⟨0, [gWait]⟩]⟩, [], 0, [], [], [], [], [], 0⟩

/-- The admission state after `admBefore`'s request is accepted. -/
def admAfter : AdmState :=
  ⟨⟨[⟨0, []⟩]⟩, [allocateFlip gWait], 1, [], [4], [allocateFlip gWait], [], [], 2⟩

/-- C2 witness: the budget theorem applied at a concrete accepting step. -/
theorem admission_budgets_preserved_witness :
    (admAfter.scheduled ≠ admBefore.scheduled →
       admAfter.num_curr_seqs ≤ cfgQuantum.max_num_seqs ∧
       admAfter.seq_lens.length * maxNat admAfter.seq_lens ≤
         cfgQuantum.max_num_batched_tokens ∧
       admAfter.seq_lens.length * maxNat admAfter.seq_lens - admAfter.seq_lens.sum ≤
         cfgQuantum.max_paddings) ∧
    (admBefore.num_curr_seqs = sumMaxRun admBefore.running →
      admAfter.num_curr_seqs = sumMaxRun admAfter.running) ∧
    (∀ r w1 ws, admBefore.waiting.pop_front = some (r, w1) →
        r.get_seqs .WAITING = [ws] →
        ws.len ≤ cfgQuantum.prompt_limit →
        bmBasic.can_allocate admBefore.clk r = .OK →
        admLoraSkip cfgQuantum admBefore.curr_loras r = false →
        (cfgQuantum.max_num_batched_tokens <
            (admBefore.seq_lens ++ [ws.len]).length *
              maxNat (admBefore.seq_lens ++ [ws.len]) ∨
          cfgQuantum.max_num_seqs < admBefore.num_curr_seqs + r.max_num_running_seqs ∨
          cfgQuantum.max_paddings <
            (admBefore.seq_lens ++ [ws.len]).length *
                maxNat (admBefore.seq_lens ++ [ws.len]) -
              (admBefore.seq_lens ++ [ws.len]).sum) →
        false = true ∧ admAfter.waiting = w1.push_front r ∧
          admAfter.scheduled = admBefore.scheduled ∧
          admAfter.running = admBefore.running) := by
  exact admission_budgets_preserved cfgQuantum bmBasic admBefore admAfter false (by rfl)

/-! ## C4: oversize prompts are ignored, never scheduled -/

/-- C4: when the admission loop pops a request whose single (WAITING)
sequence exceeds `prompt_limit`, that pass marks the sequence
FINISHED_IGNORED (so the whole request is finished), appends the request to
the plan's ignored list, adds it to neither the scheduled list nor the
running deque nor the leftover deque, removes it from the waiting ladder, and
continues the loop (lines 359-367).  Since the request then resides in no
pool and is finished, it can never appear in any later plan's scheduled
list either. -/
theorem oversize_prompt_ignored
    (cfg : SchedCfg) (bm : BlockManager) (st : AdmState) (r : SequenceGroup)
    (w1 : Priority_Queues) (s : Sequence) (st' : AdmState) (b : Bool)
    (hpop : st.waiting.pop_front = some (r, w1))
    (hseqs : r.seqs = [s]) (hst : s.status = .WAITING)
    (hlen : cfg.prompt_limit < s.len)
    (hstep : admissionStep cfg bm st = .ok (st', b)) :
    st'.ignored = st.ignored ++ [markIgnoredWaiting r] ∧
      (markIgnoredWaiting r).seqs.all (fun q => q.status == .FINISHED_IGNORED) = true ∧
      (markIgnoredWaiting r).is_finished = true ∧
      st'.scheduled = st.scheduled ∧ st'.running = st.running ∧
      st'.leftover = st.leftover ∧ st'.waiting = w1 ∧ b = false := by
  have hws : r.get_seqs .WAITING = [s] := by
    unfold SequenceGroup.get_seqs
    rw [hseqs]
    simp [hst]
  rw [admissionStep, hpop] at hstep
  simp only at hstep
  rw [hws] at hstep
  simp only at hstep
  rw [if_pos hlen] at hstep
  simp only [Except.ok.injEq, Prod.mk.injEq] at hstep
  obtain ⟨rfl, rfl⟩ := hstep
  refine ⟨rfl, ?_, ?_, rfl, rfl, rfl, rfl, rfl⟩
  · simp [markIgnoredWaiting, hseqs, hst]
  · simp [markIgnoredWaiting, SequenceGroup.is_finished, hseqs, hst,
      SequenceStatus.is_finished]

/-- An oversize prompt request (9999 tokens). -/
def gLong : SequenceGroup := ⟨5, 0, 0, 0, none, 1, [⟨0, .WAITING, 9999⟩]⟩

/-- Admission state holding only the oversize request. -/
def admLong : AdmState := ⟨⟨[⟨0, [gLong]⟩]⟩, [], 0, [], [], [], [], [], 0⟩

/-- C4 witness: the oversize theorem applied at a concrete state. -/
theorem oversize_prompt_ignored_witness :
    (⟨⟨[⟨0, []⟩]⟩, [], 0, [], [], [], [markIgnoredWaiting gLong], [], 0⟩ : AdmState).ignored
        = admLong.ignored ++ [markIgnoredWaiting gLong] ∧
      (markIgnoredWaiting gLong).seqs.all (fun q => q.status == .FINISHED_IGNORED) = true ∧
      (markIgnoredWaiting gLong).is_finished = true ∧
      (⟨⟨[⟨0, []⟩]⟩, [], 0, [], [], [], [markIgnoredWaiting gLong], [], 0⟩ : AdmState).scheduled
        = admLong.scheduled ∧
      (⟨⟨[⟨0, []⟩]⟩, [], 0, [], [], [], [markIgnoredWaiting gLong], [], 0⟩ : AdmState).running
        = admLong.running ∧
      (⟨⟨[⟨0, []⟩]⟩, [], 0, [], [], [], [markIgnoredWaiting gLong], [], 0⟩ : AdmState).leftover
        = admLong.leftover ∧
      (⟨⟨[⟨0, []⟩]⟩, [], 0, [], [], [], [markIgnoredWaiting gLong], [], 0⟩ : AdmState).waiting
        = ⟨[⟨0, []⟩]⟩ ∧
      false = false :=
  oversize_prompt_ignored cfgQuantum bmBasic admLong gLong ⟨[⟨0, []⟩]⟩
    ⟨0, .WAITING, 9999⟩
    (⟨⟨[⟨0, []⟩]⟩, [], 0, [], [], [], [markIgnoredWaiting gLong], [], 0⟩ : AdmState) false
    (by rfl) (by rfl) (by rfl) (by decide) (by rfl)

/-! ## C1: swap-in and swap-out never both non-empty -/

theorem mkSchedulerOutputs_ok_of (scheduled : List SequenceGroup) (pr : Bool)
    (nbt : Nat) (si so : List (Nat × Nat)) (c : List (Nat × List Nat))
    (ig : List SequenceGroup) (h : si = [] ∨ so = []) :
    mkSchedulerOutputs scheduled pr nbt si so c ig =
      .ok ⟨(if 0 < num_loras scheduled then sort_by_lora_ids scheduled else scheduled),
        pr, nbt, si, so, c, ig⟩ := by
  unfold mkSchedulerOutputs
  rcases h with rfl | rfl
  · simp
  · simp

theorem mkSchedulerOutputs_fields (scheduled : List SequenceGroup) (pr : Bool)
    (nbt : Nat) (si so : List (Nat × Nat)) (c : List (Nat × List Nat))
    (ig : List SequenceGroup) (out : SchedulerOutputs)
    (h : mkSchedulerOutputs scheduled pr nbt si so c ig = .ok out) :
    out.prompt_run = pr ∧ out.blocks_to_swap_in = si ∧ out.blocks_to_swap_out = so := by
  unfold mkSchedulerOutputs at h
  split at h
  · exact absurd h (by simp)
  · simp only [Except.ok.injEq] at h
    rw [← h]
    exact ⟨rfl, rfl, rfl⟩

theorem _swap_out_error (bm : BlockManager) (g : SequenceGroup) (ds : DecodeSt)
    (e : SchedError) (h : _swap_out bm g ds = .error e) : e = .swapSpaceExhausted := by
  unfold _swap_out at h
  simp only at h
  split at h
  · simp only [Except.error.injEq] at h
    exact h.symm
  · exact absurd h (by simp)

theorem _preempt_by_swap_error (bm : BlockManager) (g : SequenceGroup) (ds : DecodeSt)
    (e : SchedError) (h : _preempt_by_swap bm g ds = .error e) :
    e = .swapSpaceExhausted := by
  unfold _preempt_by_swap at h
  cases hso : _swap_out bm g ds with
  | error e2 =>
    rw [hso] at h
    simp only [Except.error.injEq] at h
    rw [← h]
    exact _swap_out_error bm g ds e2 hso
  | ok p => rw [hso] at h; exact absurd h (by simp)

theorem decodeGo_b2so (bm : BlockManager) (fuel : Nat) :
    ∀ (cur : Option SequenceGroup) (run_in run_out preempted : List SequenceGroup)
      (ds : DecodeSt) (ro pre1 : List SequenceGroup) (ds1 : DecodeSt),
      decodeGo bm fuel cur run_in run_out preempted ds = .ok (ro, pre1, ds1) →
      ∃ ext, pre1 = preempted ++ ext ∧ (ext = [] → ds1.b2so = ds.b2so) := by
  induction fuel with
  | zero =>
    intro cur run_in run_out preempted ds ro pre1 ds1 h
    simp only [decodeGo, Except.ok.injEq, Prod.mk.injEq] at h
    obtain ⟨_, rfl, rfl⟩ := h
    exact ⟨[], by simp, fun _ => rfl⟩
  | succ fuel ih =>
    intro cur run_in run_out preempted ds ro pre1 ds1 h
    cases cur with
    | none =>
      cases run_in with
      | nil =>
        simp only [decodeGo, Except.ok.injEq, Prod.mk.injEq] at h
        obtain ⟨_, rfl, rfl⟩ := h
        exact ⟨[], by simp, fun _ => rfl⟩
      | cons g rest =>
        simp only [decodeGo] at h
        exact ih _ _ _ _ _ _ _ _ h
    | some g =>
      simp only [decodeGo] at h
      by_cases hcan : bm.can_append_slot ds.clk g = true
      · rw [if_pos hcan] at h
        obtain ⟨ext, h1, h2⟩ := ih _ _ _ _ _ _ _ _ h
        exact ⟨ext, h1, fun he => h2 he⟩
      · rw [if_neg hcan] at h
        cases hlast : run_in.getLast? with
        | some victim =>
          rw [hlast] at h
          simp only at h
          cases hps : _preempt_by_swap bm victim
              ⟨ds.swapped, ds.b2so, ds.b2c, ds.clk + 1⟩ with
          | error e => rw [hps] at h; exact absurd h (by simp)
          | ok p =>
            rw [hps] at h
            simp only at h
            obtain ⟨ext, h1, _⟩ := ih _ _ _ _ _ _ _ _ h
            refine ⟨[p.1] ++ ext, by rw [h1, List.append_assoc], ?_⟩
            intro he
            exact absurd he (by simp)
        | none =>
          rw [hlast] at h
          simp only at h
          cases hps : _preempt_by_swap bm g
              ⟨ds.swapped, ds.b2so, ds.b2c, ds.clk + 1⟩ with
          | error e => rw [hps] at h; exact absurd h (by simp)
          | ok p =>
            rw [hps] at h
            simp only at h
            obtain ⟨ext, h1, _⟩ := ih _ _ _ _ _ _ _ _ h
            refine ⟨[p.1] ++ ext, by rw [h1, List.append_assoc], ?_⟩
            intro he
            exact absurd he (by simp)

theorem decodeGo_error (bm : BlockManager) (fuel : Nat) :
    ∀ (cur : Option SequenceGroup) (run_in run_out preempted : List SequenceGroup)
      (ds : DecodeSt) (e : SchedError),
      decodeGo bm fuel cur run_in run_out preempted ds = .error e →
      e = .swapSpaceExhausted := by
  induction fuel with
  | zero =>
    intro cur run_in run_out preempted ds e h
    simp [decodeGo] at h
  | succ fuel ih =>
    intro cur run_in run_out preempted ds e h
    cases cur with
    | none =>
      cases run_in with
      | nil => simp [decodeGo] at h
      | cons g rest =>
        simp only [decodeGo] at h
        exact ih _ _ _ _ _ _ h
    | some g =>
      simp only [decodeGo] at h
      by_cases hcan : bm.can_append_slot ds.clk g = true
      · rw [if_pos hcan] at h
        exact ih _ _ _ _ _ _ h
      · rw [if_neg hcan] at h
        cases hlast : run_in.getLast? with
        | some victim =>
          rw [hlast] at h
          simp only at h
          cases hps : _preempt_by_swap bm victim
              ⟨ds.swapped, ds.b2so, ds.b2c, ds.clk + 1⟩ with
          | error e2 =>
            rw [hps] at h
            simp only [Except.error.injEq] at h
            rw [← h]
            exact _preempt_by_swap_error bm victim _ e2 hps
          | ok p =>
            rw [hps] at h
            simp only at h
            exact ih _ _ _ _ _ _ h
        | none =>
          rw [hlast] at h
          simp only at h
          cases hps : _preempt_by_swap bm g
              ⟨ds.swapped, ds.b2so, ds.b2c, ds.clk + 1⟩ with
          | error e2 =>
            rw [hps] at h
            simp only [Except.error.injEq] at h
            rw [← h]
            exact _preempt_by_swap_error bm g _ e2 hps
          | ok p =>
            rw [hps] at h
            simp only at h
            exact ih _ _ _ _ _ _ h

theorem decodePhase_no_both (cfg : SchedCfg) (bm : BlockManager) (now : Int)
    (st : MLFQScheduler) (b2c : List (Nat × List Nat)) (clk : Nat) :
    (decodePhase cfg bm now st [] [] b2c clk ≠ .error .assertSwapInOut) ∧
    (∀ st' out clk', decodePhase cfg bm now st [] [] b2c clk = .ok (st', out, clk') →
      out.blocks_to_swap_in = [] ∨ out.blocks_to_swap_out = []) := by
  unfold decodePhase
  cases hdg : decodeGo bm (2 * (policy_sort_by_priority now st.running).length + 2) none
      (policy_sort_by_priority now st.running) [] [] ⟨st.swapped, [], b2c, clk⟩ with
  | error e =>
    have he := decodeGo_error bm _ _ _ _ _ _ _ hdg
    subst he
    simp only [hdg]
    refine ⟨by simp, ?_⟩
    intro st' out clk' h
    exact absurd h (by simp)
  | ok res =>
    obtain ⟨ro, pre, ds⟩ := res
    obtain ⟨ext, hpre, hb⟩ := decodeGo_b2so bm _ _ _ _ _ _ _ _ _ hdg
    simp only [List.nil_append] at hpre
    simp only [hdg]
    by_cases hemp : pre.isEmpty = true
    · have hext : ext = [] := by
        rw [List.isEmpty_iff] at hemp
        rw [hemp] at hpre
        exact hpre.symm
      have hso : ds.b2so = [] := hb hext
      simp only [if_pos hemp, hso]
      rw [mkSchedulerOutputs_ok_of _ _ _ _ _ _ _ (Or.inr rfl)]
      refine ⟨by simp, ?_⟩
      intro st' out clk' h
      simp only [Except.ok.injEq, Prod.mk.injEq] at h
      obtain ⟨_, rfl, _⟩ := h
      exact Or.inr rfl
    · simp only [if_neg hemp]
      rw [mkSchedulerOutputs_ok_of _ _ _ _ _ _ _ (Or.inl rfl)]
      refine ⟨by simp, ?_⟩
      intro st' out clk' h
      simp only [Except.ok.injEq, Prod.mk.injEq] at h
      obtain ⟨_, rfl, _⟩ := h
      exact Or.inl rfl

theorem admissionStep_error (cfg : SchedCfg) (bm : BlockManager) (st : AdmState)
    (e : SchedError) (h : admissionStep cfg bm st = .error e) :
    e = .assertWaitingSeqs := by
  cases hpop : st.waiting.pop_front with
  | none => rw [admissionStep, hpop] at h; exact absurd h (by simp)
  | some p =>
    obtain ⟨r0, w0⟩ := p
    rw [admissionStep, hpop] at h
    simp only at h
    cases hws : r0.get_seqs .WAITING with
    | nil =>
      rw [hws] at h
      simp only [Except.error.injEq] at h
      exact h.symm
    | cons ws0 tl =>
      cases tl with
      | cons ws1 tl2 =>
        rw [hws] at h
        simp only [Except.error.injEq] at h
        exact h.symm
      | nil =>
        rw [hws] at h
        simp only at h
        split at h
        · exact absurd h (by simp)
        · split at h
          · exact absurd h (by simp)
          · exact absurd h (by simp)
          · split at h
            · exact absurd h (by simp)
            · split at h
              · exact absurd h (by simp)
              · split at h
                · exact absurd h (by simp)
                · split at h
                  · exact absurd h (by simp)
                  · exact absurd h (by simp)

theorem admissionLoop_error (cfg : SchedCfg) (bm : BlockManager) (fuel : Nat) :
    ∀ (st : AdmState) (e : SchedError),
      admissionLoop cfg bm fuel st = .error e → e = .assertWaitingSeqs := by
  induction fuel with
  | zero =>
    intro st e h
    simp [admissionLoop] at h
  | succ fuel ih =>
    intro st e h
    rw [admissionLoop] at h
    by_cases hlen : 0 < st.waiting.len
    · rw [if_pos hlen] at h
      cases hstep : admissionStep cfg bm st with
      | error e2 =>
        rw [hstep] at h
        simp only [Except.error.injEq] at h
        rw [← h]
        exact admissionStep_error cfg bm st e2 hstep
      | ok p =>
        obtain ⟨st1, bflag⟩ := p
        rw [hstep] at h
        cases bflag with
        | true => simp only at h; exact absurd h (by simp)
        | false => simp only at h; exact ih st1 e h
    · rw [if_neg hlen] at h
      exact absurd h (by simp)

theorem promptBranch_no_both (cfg : SchedCfg) (bm : BlockManager) (now : Int)
    (st : MLFQScheduler) (clk : Nat) :
    (promptBranch cfg bm now st clk ≠ .error .assertSwapInOut) ∧
    (∀ st' out clk', promptBranch cfg bm now st clk = .ok (st', out, clk') →
      out.blocks_to_swap_in = [] ∨ out.blocks_to_swap_out = []) := by
  unfold promptBranch
  cases hadm : admissionLoop cfg bm st.waiting.len
      ⟨st.waiting, st.running, sumMaxRun st.running,
        (if cfg.lora_enabled then lorasOf st.running else []), [], [], [], [], clk⟩ with
  | error e =>
    have he := admissionLoop_error cfg bm _ _ _ hadm
    subst he
    simp only [hadm]
    refine ⟨by simp, ?_⟩
    intro st' out clk' h
    exact absurd h (by simp)
  | ok a =>
    simp only [hadm]
    by_cases hplan : (!a.scheduled.isEmpty || !a.ignored.isEmpty) = true
    · simp only [if_pos hplan]
      rw [mkSchedulerOutputs_ok_of _ _ _ _ _ _ _ (Or.inl rfl)]
      refine ⟨by simp, ?_⟩
      intro st' out clk' h
      simp only [Except.ok.injEq, Prod.mk.injEq] at h
      obtain ⟨_, rfl, _⟩ := h
      exact Or.inl rfl
    · simp only [if_neg hplan]
      exact decodePhase_no_both cfg bm now _ [] a.clk

/-- C1: a `_schedule` call can never trip the swap-in/swap-out assertion of
`SchedulerOutputs.__init__` (line 50), and in every plan it produces at least
one of `blocks_to_swap_in` and `blocks_to_swap_out` is empty: the prompt
branch emits its plan with both dicts still empty, the decode branch fills
`blocks_to_swap_out` only on preemption paths that also extend the
`preempted` list, and the swap-in loop — the only writer of
`blocks_to_swap_in` — runs only when `preempted` is empty. -/
theorem swap_in_out_never_both (cfg : SchedCfg) (bm : BlockManager) (now : Int)
    (st : MLFQScheduler) (clk : Nat) :
    (_schedule cfg bm now st clk ≠ .error .assertSwapInOut) ∧
    (∀ st' out clk', _schedule cfg bm now st clk = .ok (st', out, clk') →
      out.blocks_to_swap_in = [] ∨ out.blocks_to_swap_out = []) := by
  unfold _schedule
  by_cases h0 : (st.swapped.len == 0) = true
  · simp only [if_pos h0]
    exact promptBranch_no_both cfg bm now st clk
  · simp only [if_neg h0]
    by_cases h1 : (waiting_get_heigher_priorty st).1 = true
    · simp only [if_pos h1]
      exact promptBranch_no_both cfg bm now _ clk
    · simp only [if_neg h1]
      exact decodePhase_no_both cfg bm now _ [] clk

/-- An empty scheduler state. -/
def stEmpty : MLFQScheduler := ⟨⟨[]⟩, [], ⟨[]⟩, 0⟩

/-- C1 witness: the theorem applied at a concrete `_schedule` run (empty
pools; the call enters the prompt branch, admits nothing, falls through to
the decode phase and produces an empty decode plan). -/
theorem swap_in_out_never_both_witness :
    (⟨[], false, 0, [], [], [], []⟩ : SchedulerOutputs).blocks_to_swap_in = [] ∨
      (⟨[], false, 0, [], [], [], []⟩ : SchedulerOutputs).blocks_to_swap_out = [] :=
  (swap_in_out_never_both cfgQuantum bmBasic 0 stEmpty 0).2
    ⟨⟨[]⟩, [], ⟨[]⟩, 2⟩ ⟨[], false, 0, [], [], [], []⟩ 0 (by rfl)

/-! ## C7: the iteration counter -/

theorem waiting_get_heigher_priorty_iteration (st : MLFQScheduler) :
    (waiting_get_heigher_priorty st).2.iteration_num = st.iteration_num := by
  unfold waiting_get_heigher_priorty
  split
  · split
    · rfl
    · split
      · rfl
      · rfl
  · rfl

theorem decodePhase_iteration (cfg : SchedCfg) (bm : BlockManager) (now : Int)
    (st : MLFQScheduler) (b2si b2so : List (Nat × Nat)) (b2c : List (Nat × List Nat))
    (clk : Nat) (st' : MLFQScheduler) (out : SchedulerOutputs) (clk' : Nat)
    (h : decodePhase cfg bm now st b2si b2so b2c clk = .ok (st', out, clk')) :
    st'.iteration_num = st.iteration_num + 1 ∧ out.prompt_run = false := by
  unfold decodePhase at h
  simp only at h
  cases hdg : decodeGo bm (2 * (policy_sort_by_priority now st.running).length + 2) none
      (policy_sort_by_priority now st.running) [] [] ⟨st.swapped, b2so, b2c, clk⟩ with
  | error e => rw [hdg] at h; exact absurd h (by simp)
  | ok res =>
    obtain ⟨ro, pre, ds⟩ := res
    rw [hdg] at h
    simp only at h
    split at h
    next e hmk => exact absurd h (by simp)
    next o hmk =>
      simp only [Except.ok.injEq, Prod.mk.injEq] at h
      obtain ⟨rfl, rfl, rfl⟩ := h
      refine ⟨?_, (mkSchedulerOutputs_fields _ _ _ _ _ _ _ _ hmk).1⟩
      by_cases hemp : pre.isEmpty = true
      · simp only [if_pos hemp]
        split <;> rfl
      · simp only [if_neg hemp]
        split <;> rfl

theorem promptBranch_iteration (cfg : SchedCfg) (bm : BlockManager) (now : Int)
    (st : MLFQScheduler) (clk : Nat) (st' : MLFQScheduler) (out : SchedulerOutputs)
    (clk' : Nat) (h : promptBranch cfg bm now st clk = .ok (st', out, clk')) :
    (out.prompt_run = true ∧ st'.iteration_num = st.iteration_num + 1) ∨
    (out.prompt_run = false ∧ st'.iteration_num = st.iteration_num + 2) := by
  unfold promptBranch at h
  simp only at h
  cases hadm : admissionLoop cfg bm st.waiting.len
      ⟨st.waiting, st.running, sumMaxRun st.running,
        (if cfg.lora_enabled then lorasOf st.running else []), [], [], [], [], clk⟩ with
  | error e => rw [hadm] at h; exact absurd h (by simp)
  | ok a =>
    rw [hadm] at h
    simp only at h
    by_cases hplan : (!a.scheduled.isEmpty || !a.ignored.isEmpty) = true
    · rw [if_pos hplan] at h
      split at h
      next e hmk => exact absurd h (by simp)
      next o hmk =>
        simp only [Except.ok.injEq, Prod.mk.injEq] at h
        obtain ⟨rfl, rfl, rfl⟩ := h
        left
        refine ⟨(mkSchedulerOutputs_fields _ _ _ _ _ _ _ _ hmk).1, ?_⟩
        split <;> rfl
    · rw [if_neg hplan] at h
      have hd := decodePhase_iteration _ _ _ _ _ _ _ _ _ _ _ h
      right
      refine ⟨hd.2, ?_⟩
      rw [hd.1]
      split <;> rfl

/-- C7 counterexample: a `_schedule` call on empty pools enters the prompt
branch (the swapped pool is empty), admits and ignores nothing, falls through
to the decode phase, and increments `iteration_num` **twice** (lines 424 and
517) — not exactly once as claimed. -/
theorem iteration_num_double_increment :
    (_schedule cfgQuantum bmBasic 0 stEmpty 0).toOption.map
        (fun x => x.1.iteration_num) = some 2 ∧
      stEmpty.iteration_num + 1 ≠ 2 := by
  constructor
  · rfl
  · decide

/-- The iteration-increment-plus-starvation-guard block that closes each
traversed phase of `_schedule` (lines 424-428 in the prompt branch and
517-521 in the decode phase): increment `iteration_num`, then, exactly when
the incremented value is a multiple of `starvation_period`, run the
starvation guard over the waiting and swapped pools. -/
def incrementAndGuard (cfg : SchedCfg) (now : Int) (st : MLFQScheduler) : MLFQScheduler :=
  let st2 := { st with iteration_num := st.iteration_num + 1 }
  if st2.iteration_num % cfg.starvation_period == 0 then
    { st2 with waiting := prevent_starvation now cfg.starvation_threshold st2.waiting,
               swapped := prevent_starvation now cfg.starvation_threshold st2.swapped }
  else st2

theorem incrementAndGuard_iteration (cfg : SchedCfg) (now : Int) (st : MLFQScheduler) :
    (incrementAndGuard cfg now st).iteration_num = st.iteration_num + 1 := by
  unfold incrementAndGuard
  simp only
  split <;> rfl

theorem decodePhase_guard (cfg : SchedCfg) (bm : BlockManager) (now : Int)
    (st : MLFQScheduler) (b2si b2so : List (Nat × Nat)) (b2c : List (Nat × List Nat))
    (clk : Nat) (st' : MLFQScheduler) (out : SchedulerOutputs) (clk' : Nat)
    (h : decodePhase cfg bm now st b2si b2so b2c clk = .ok (st', out, clk')) :
    out.prompt_run = false ∧
    ∃ r sw, st' = incrementAndGuard cfg now ⟨st.waiting, r, sw, st.iteration_num⟩ := by
  unfold decodePhase at h
  simp only at h
  cases hdg : decodeGo bm (2 * (policy_sort_by_priority now st.running).length + 2) none
      (policy_sort_by_priority now st.running) [] [] ⟨st.swapped, b2so, b2c, clk⟩ with
  | error e => rw [hdg] at h; exact absurd h (by simp)
  | ok res =>
    obtain ⟨ro, pre, ds⟩ := res
    rw [hdg] at h
    simp only at h
    split at h
    next e hmk => exact absurd h (by simp)
    next o hmk =>
      simp only [Except.ok.injEq, Prod.mk.injEq] at h
      obtain ⟨rfl, rfl, rfl⟩ := h
      refine ⟨(mkSchedulerOutputs_fields _ _ _ _ _ _ _ _ hmk).1, ?_⟩
      by_cases hemp : pre.isEmpty = true
      · simp only [if_pos hemp]
        refine ⟨(swapInLoop cfg bm ds.swapped.len
            ⟨ds.swapped, ro, sumMaxRun ro,
              (if cfg.lora_enabled then lorasOf ro else []), [], b2si, ds.b2c,
              ds.clk⟩).running,
          ((swapInLoop cfg bm ds.swapped.len
            ⟨ds.swapped, ro, sumMaxRun ro,
              (if cfg.lora_enabled then lorasOf ro else []), [], b2si, ds.b2c,
              ds.clk⟩).swapped.extend_front
            (swapInLoop cfg bm ds.swapped.len
            ⟨ds.swapped, ro, sumMaxRun ro,
              (if cfg.lora_enabled then lorasOf ro else []), [], b2si, ds.b2c,
              ds.clk⟩).leftover_swapped), ?_⟩
        unfold incrementAndGuard
        simp only
      · simp only [if_neg hemp]
        refine ⟨ro, ds.swapped, ?_⟩
        unfold incrementAndGuard
        simp only

theorem promptBranch_guard (cfg : SchedCfg) (bm : BlockManager) (now : Int)
    (st : MLFQScheduler) (clk : Nat) (st' : MLFQScheduler) (out : SchedulerOutputs)
    (clk' : Nat) (h : promptBranch cfg bm now st clk = .ok (st', out, clk')) :
    (out.prompt_run = true ∧
      ∃ w r, st' = incrementAndGuard cfg now ⟨w, r, st.swapped, st.iteration_num⟩) ∨
    (out.prompt_run = false ∧
      ∃ w r r2 sw2,
        st' = incrementAndGuard cfg now
          ⟨(incrementAndGuard cfg now ⟨w, r, st.swapped, st.iteration_num⟩).waiting, r2,
            sw2,
            (incrementAndGuard cfg now ⟨w, r, st.swapped, st.iteration_num⟩).iteration_num⟩) := by
  unfold promptBranch at h
  simp only at h
  cases hadm : admissionLoop cfg bm st.waiting.len
      ⟨st.waiting, st.running, sumMaxRun st.running,
        (if cfg.lora_enabled then lorasOf st.running else []), [], [], [], [], clk⟩ with
  | error e => rw [hadm] at h; exact absurd h (by simp)
  | ok a =>
    rw [hadm] at h
    simp only at h
    by_cases hplan : (!a.scheduled.isEmpty || !a.ignored.isEmpty) = true
    · rw [if_pos hplan] at h
      split at h
      next e hmk => exact absurd h (by simp)
      next o hmk =>
        simp only [Except.ok.injEq, Prod.mk.injEq] at h
        obtain ⟨rfl, rfl, rfl⟩ := h
        left
        refine ⟨(mkSchedulerOutputs_fields _ _ _ _ _ _ _ _ hmk).1,
          a.waiting.extend_front a.leftover, a.running, ?_⟩
        unfold incrementAndGuard
        simp only
    · rw [if_neg hplan] at h
      obtain ⟨hpr, r2, sw2, hst⟩ := decodePhase_guard _ _ _ _ _ _ _ _ _ _ _ h
      right
      exact ⟨hpr, a.waiting.extend_front a.leftover, a.running, r2, sw2, hst⟩

/-- C7 as amended: `_schedule` increments `iteration_num` once in each phase
it traverses — by one when the prompt branch emits a plan (`prompt_run =
true`) and when the decode phase is entered directly, and by two when the
prompt branch is entered but yields no scheduled or ignored request and
execution falls through to the decode phase — and each increment is
immediately followed by a starvation-guard check against the then-current
waiting and swapped pools, which runs the guard exactly when the incremented
value is a multiple of `starvation_period` (the `incrementAndGuard` block,
lines 424-428 and 517-521): the returned state is `incrementAndGuard` of an
intermediate state carrying `st.iteration_num`, applied twice (nested) on
the fall-through path, where the second application reads the waiting ladder
left by the first. -/
theorem iteration_num_increment_per_phase (cfg : SchedCfg) (bm : BlockManager)
    (now : Int) (st : MLFQScheduler) (clk : Nat) (st' : MLFQScheduler)
    (out : SchedulerOutputs) (clk' : Nat)
    (h : _schedule cfg bm now st clk = .ok (st', out, clk')) :
    st'.iteration_num = st.iteration_num +
      (if out.prompt_run then 1 else if prompt_phase_condition st then 2 else 1) ∧
    (out.prompt_run = true →
      ∃ w r sw, st' = incrementAndGuard cfg now ⟨w, r, sw, st.iteration_num⟩) ∧
    (out.prompt_run = false → prompt_phase_condition st = false →
      ∃ w r sw, st' = incrementAndGuard cfg now ⟨w, r, sw, st.iteration_num⟩) ∧
    (out.prompt_run = false → prompt_phase_condition st = true →
      ∃ w r sw r2 sw2,
        st' = incrementAndGuard cfg now
          ⟨(incrementAndGuard cfg now ⟨w, r, sw, st.iteration_num⟩).waiting, r2, sw2,
            (incrementAndGuard cfg now ⟨w, r, sw, st.iteration_num⟩).iteration_num⟩) := by
  unfold _schedule at h
  by_cases h0 : (st.swapped.len == 0) = true
  · rw [if_pos h0] at h
    have hpc : prompt_phase_condition st = true := by
      unfold prompt_phase_condition
      rw [h0]
      rfl
    rcases promptBranch_guard _ _ _ _ _ _ _ _ h with
      ⟨hpr, w, r, hst⟩ | ⟨hpr, w, r, r2, sw2, hst⟩
    · refine ⟨?_, ?_, ?_, ?_⟩
      · rw [hpr, hst, incrementAndGuard_iteration]
        simp
      · intro _
        exact ⟨w, r, st.swapped, hst⟩
      · intro hf
        rw [hpr] at hf
        exact absurd hf (by simp)
      · intro hf
        rw [hpr] at hf
        exact absurd hf (by simp)
    · refine ⟨?_, ?_, ?_, ?_⟩
      · rw [hpr, hst, incrementAndGuard_iteration, hpc]
        simp [incrementAndGuard_iteration]
      · intro ht
        rw [hpr] at ht
        exact absurd ht (by simp)
      · intro _ hf
        rw [hpc] at hf
        exact absurd hf (by simp)
      · intro _ _
        exact ⟨w, r, st.swapped, r2, sw2, hst⟩
  · rw [if_neg h0] at h
    simp only at h
    have hiter := waiting_get_heigher_priorty_iteration st
    by_cases h1 : (waiting_get_heigher_priorty st).1 = true
    · rw [if_pos h1] at h
      have hpc : prompt_phase_condition st = true := by
        unfold prompt_phase_condition
        rw [h1]
        simp
      rcases promptBranch_guard _ _ _ _ _ _ _ _ h with
        ⟨hpr, w, r, hst⟩ | ⟨hpr, w, r, r2, sw2, hst⟩
      · rw [hiter] at hst
        refine ⟨?_, ?_, ?_, ?_⟩
        · rw [hpr, hst, incrementAndGuard_iteration]
          simp
        · intro _
          exact ⟨w, r, (waiting_get_heigher_priorty st).2.swapped, hst⟩
        · intro hf
          rw [hpr] at hf
          exact absurd hf (by simp)
        · intro hf
          rw [hpr] at hf
          exact absurd hf (by simp)
      · rw [hiter] at hst
        refine ⟨?_, ?_, ?_, ?_⟩
        · rw [hpr, hst, incrementAndGuard_iteration, hpc]
          simp [incrementAndGuard_iteration]
        · intro ht
          rw [hpr] at ht
          exact absurd ht (by simp)
        · intro _ hf
          rw [hpc] at hf
          exact absurd hf (by simp)
        · intro _ _
          exact ⟨w, r, (waiting_get_heigher_priorty st).2.swapped, r2, sw2, hst⟩
    · rw [if_neg h1] at h
      have hpc : prompt_phase_condition st = false := by
        unfold prompt_phase_condition
        rw [Bool.or_eq_false_iff]
        exact ⟨by simpa using h0, by simpa using h1⟩
      obtain ⟨hpr, r2, sw2, hst⟩ := decodePhase_guard _ _ _ _ _ _ _ _ _ _ _ h
      rw [hiter] at hst
      refine ⟨?_, ?_, ?_, ?_⟩
      · rw [hpr, hst, incrementAndGuard_iteration, hpc]
        simp
      · intro ht
        rw [hpr] at ht
        exact absurd ht (by simp)
      · intro _ _
        exact ⟨(waiting_get_heigher_priorty st).2.waiting, r2, sw2, hst⟩
      · intro _ hf
        rw [hpc] at hf
        exact absurd hf (by simp)

/-- C7 witness: the amended increment-and-guard theorem applied at the
concrete fall-through run of the counterexample (two increments, each
followed by a guard check that does not fire since 1 and 2 are not multiples
of the period 1000). -/
theorem iteration_num_increment_per_phase_witness :
    (⟨⟨[]⟩, [], ⟨[]⟩, 2⟩ : MLFQScheduler).iteration_num =
      stEmpty.iteration_num +
        (if (⟨[], false, 0, [], [], [], []⟩ : SchedulerOutputs).prompt_run then 1
         else if prompt_phase_condition stEmpty then 2 else 1) ∧
    ((⟨[], false, 0, [], [], [], []⟩ : SchedulerOutputs).prompt_run = true →
      ∃ w r sw, (⟨⟨[]⟩, [], ⟨[]⟩, 2⟩ : MLFQScheduler) =
        incrementAndGuard cfgQuantum 0 ⟨w, r, sw, stEmpty.iteration_num⟩) ∧
    ((⟨[], false, 0, [], [], [], []⟩ : SchedulerOutputs).prompt_run = false →
      prompt_phase_condition stEmpty = false →
      ∃ w r sw, (⟨⟨[]⟩, [], ⟨[]⟩, 2⟩ : MLFQScheduler) =
        incrementAndGuard cfgQuantum 0 ⟨w, r, sw, stEmpty.iteration_num⟩) ∧
    ((⟨[], false, 0, [], [], [], []⟩ : SchedulerOutputs).prompt_run = false →
      prompt_phase_condition stEmpty = true →
      ∃ w r sw r2 sw2, (⟨⟨[]⟩, [], ⟨[]⟩, 2⟩ : MLFQScheduler) =
        incrementAndGuard cfgQuantum 0
          ⟨(incrementAndGuard cfgQuantum 0 ⟨w, r, sw, stEmpty.iteration_num⟩).waiting,
            r2, sw2,
            (incrementAndGuard cfgQuantum 0
              ⟨w, r, sw, stEmpty.iteration_num⟩).iteration_num⟩) :=
  iteration_num_increment_per_phase cfgQuantum bmBasic 0 stEmpty 0
    ⟨⟨[]⟩, [], ⟨[]⟩, 2⟩ ⟨[], false, 0, [], [], [], []⟩ 0 (by rfl)
